import Mathlib

/-!
Verification of the page-alignment engine of the mangaoff repository.

The definitions below are a shallow embedding of `parser/page_aligner.py`
and `parser/prepare_chapter.py`:

* `PageInfo`, `PageMatch` mirror the dataclasses of `page_aligner.py`;
  a perceptual hash is embedded as a bit vector (`List Bool`), and
  `hash_distance` is the Hamming distance computed by `imagehash`.
* `dpTable` is the cost table filled by `align_sequences` (lines 184-212),
  kept faithful to the `INF = float('inf')` placeholder: a cell holds
  `none` while it still carries the placeholder.  `dp` is the same table
  with the placeholder eliminated (every in-range cell of the Python table
  is overwritten with a finite minimum before it is ever read); the
  equivalence of the two is proved below (`dpTable_eq_dp`).
* `traceback` mirrors the `while i > 0 or j > 0` loop (lines 214-250),
  `align_sequences` the whole function including its early returns.
* `matched_count`, `insert_a_count`, `insert_b_count`, `avg_distance`
  mirror the statistics block of `align_chapters` (lines 275-293).
* `analyze_chapter`, `extract_pages`, `align_and_prepare_pages`,
  `create_aligned_zip`, `manifest_matched` mirror `prepare_chapter.py`;
  image decoding and hashing (PIL / imagehash) are external libraries, so
  the pipeline is parametrized by an arbitrary pure hashing function
  `hashFn`, exactly the role `compute_phash` plays for this code.
-/

/-! ## Definitions -/

/-- Mirror of the `PageInfo` dataclass of `page_aligner.py`. -/
structure PageInfo where
  index : Nat
  filename : String
  phash : List Bool
  width : Nat
  height : Nat
  deriving DecidableEq

instance : Inhabited PageInfo := ⟨⟨0, "", [], 0, 0⟩⟩

/-- Mirror of the `PageMatch` dataclass of `page_aligner.py`.
`match_type` is one of the strings used by the source:
"match", "weak_match", "insert_a", "insert_b". -/
structure PageMatch where
  page_a : Option PageInfo
  page_b : Option PageInfo
  distance : Option Nat
  match_type : String
  deriving DecidableEq

/-- `hash_distance` (page_aligner.py lines 137-141): Hamming distance
between two bit vectors, which is what `imagehash`'s subtraction returns. -/
def hash_distance (h1 h2 : List Bool) : Nat :=
  (List.zipWith (fun a b => a != b) h1 h2).count true

/-- Entry `dist[i][j]` of the matrix built by `build_distance_matrix`
(page_aligner.py lines 144-153). -/
def distMatrix (A B : List PageInfo) (i j : Nat) : Nat :=
  hash_distance (A.getD i default).phash (B.getD j default).phash

/-- `GAP_PENALTY = threshold + 5` (page_aligner.py line 182). -/
def GAP_PENALTY (threshold : Int) : Int := threshold + 5

/-- Minimum of two cells of the cost table, where `none` stands for the
`float('inf')` placeholder. -/
def omin : Option Int → Option Int → Option Int
  | none, b => b
  | some x, none => some x
  | some x, some y => some (min x y)

/-- Add a finite cost to a possibly-infinite cell. -/
def oadd (o : Option Int) (c : Int) : Option Int := o.map (fun v => v + c)

/-- The cost table of `align_sequences` (page_aligner.py lines 184-212),
including the `INF` placeholder (`none`).  Cell `(i+1, j+1)` performs the
same sequence of `min` updates as the Python loop body: the diagonal
option guarded by the threshold test, then the two gap options. -/
def dpTable (A B : List PageInfo) (t : Int) : Nat → Nat → Option Int
  | 0, 0 => some 0
  | i+1, 0 => some (((i + 1 : Nat) : Int) * GAP_PENALTY t)
  | 0, j+1 => some (((j + 1 : Nat) : Int) * GAP_PENALTY t)
  | i+1, j+1 =>
    let d : Int := (distMatrix A B i j : Int)
    let c1 :=
      if d ≤ t then omin none (oadd (dpTable A B t i j) d)
      else omin none (oadd (dpTable A B t i j) (GAP_PENALTY t * 2))
    let c2 := omin c1 (oadd (dpTable A B t i (j+1)) (GAP_PENALTY t))
    omin c2 (oadd (dpTable A B t (i+1) j) (GAP_PENALTY t))
  termination_by i j => (i, j)

/-- The substitution option of the recurrence (page_aligner.py lines
199-206): the pair distance when it is within the threshold, twice the
gap penalty otherwise. -/
def subCost (A B : List PageInfo) (t : Int) (i j : Nat) : Int :=
  if (distMatrix A B i j : Int) ≤ t then (distMatrix A B i j : Int) else GAP_PENALTY t * 2

/-- Row 0 of the placeholder-free cost table: `dp[0][j] = j · gapPenalty`. -/
def dpRow0 (t : Int) : Nat → Int
  | 0 => 0
  | j+1 => ((j + 1 : Nat) : Int) * GAP_PENALTY t

/-- Row `i+1` of the placeholder-free cost table, given row `i` as `prev`:
exactly the loop body of page_aligner.py lines 197-212, cell by cell. -/
def dpRowNext (A B : List PageInfo) (t : Int) (i : Nat) (prev : Nat → Int) :
    Nat → Int
  | 0 => ((i + 1 : Nat) : Int) * GAP_PENALTY t
  | j+1 =>
    min (prev j + subCost A B t i j)
      (min (prev (j+1) + GAP_PENALTY t)
        (dpRowNext A B t i prev j + GAP_PENALTY t))

/-- The cost table with the `INF` placeholder eliminated, filled row by
row in the same order as the Python loops (every in-range cell of the
Python table is overwritten with a finite minimum before it is ever
read); its characterizing equations are `dp_zero_zero`, `dp_row`,
`dp_col`, `dp_succ`, and its equivalence with the faithful
placeholder table is `dpTable_eq_dp`. -/
def dp (A B : List PageInfo) (t : Int) : Nat → Nat → Int
  | 0 => dpRow0 t
  | i+1 => dpRowNext A B t i (dp A B t i)

/-- Traceback states with `i = 0`: only `elif j > 0` can fire, emitting
one `insert_b` per step. -/
def tbRow0 (B : List PageInfo) : Nat → List PageMatch
  | 0 => []
  | j+1 => ⟨none, some (B.getD j default), none, "insert_b"⟩ :: tbRow0 B j

/-- Traceback states with `i = i0+1`, given all states of `i = i0` as
`prev`: the body of the `while i > 0 or j > 0` loop of page_aligner.py
lines 218-250 at state `(i0+1, j)`.  The `[]` in the `j = 0` case is the
Python `break`. -/
def tbRowNext (A B : List PageInfo) (t : Int) (i : Nat)
    (prev : Nat → List PageMatch) : Nat → List PageMatch
  | 0 =>
    if dp A B t (i+1) 0 = dp A B t i 0 + GAP_PENALTY t then
      ⟨some (A.getD i default), none, none, "insert_a"⟩ :: prev 0
    else []
  | j+1 =>
    let d : Nat := distMatrix A B i j
    if (d : Int) ≤ t ∧ dp A B t (i+1) (j+1) = dp A B t i j + (d : Int) then
      ⟨some (A.getD i default), some (B.getD j default), some d,
        if (d : Int) ≤ Int.fdiv t 2 then "match" else "weak_match"⟩ :: prev j
    else if t < (d : Int) ∧
        dp A B t (i+1) (j+1) = dp A B t i j + GAP_PENALTY t * 2 then
      ⟨some (A.getD i default), none, none, "insert_a"⟩ ::
        ⟨none, some (B.getD j default), none, "insert_b"⟩ :: prev j
    else if dp A B t (i+1) (j+1) = dp A B t i (j+1) + GAP_PENALTY t then
      ⟨some (A.getD i default), none, none, "insert_a"⟩ :: prev (j+1)
    else
      ⟨none, some (B.getD j default), none, "insert_b"⟩ ::
        tbRowNext A B t i prev j

/-- The traceback loop of `align_sequences` (page_aligner.py lines
214-250), producing the matches in traceback (reverse) order; the
argument pair is the loop state `(i, j)`.  Its characterizing equations
(`tb_zero_zero`, `tb_col`, `tb_row`, `tb_succ`) are exactly the four
shapes of the loop body. -/
def traceback (A B : List PageInfo) (t : Int) : Nat → Nat → List PageMatch
  | 0 => tbRow0 B
  | i+1 => tbRowNext A B t i (traceback A B t i)

/-- `align_sequences` (page_aligner.py lines 156-255). -/
def align_sequences (A B : List PageInfo) (t : Int) : List PageMatch :=
  if A.length = 0 ∧ B.length = 0 then []
  else if A.length = 0 then
    B.map (fun pb => ⟨none, some pb, none, "insert_b"⟩)
  else if B.length = 0 then
    A.map (fun pa => ⟨some pa, none, none, "insert_a"⟩)
  else
    (traceback A B t A.length B.length).reverse

/-- `matched = sum(1 for m in matches if m.match_type == "match")`
(page_aligner.py line 276). -/
def matched_count (ms : List PageMatch) : Nat :=
  ms.countP (fun m => m.match_type == "match")

/-- `insert_a = sum(1 for m in matches if m.match_type == "insert_a")`
(page_aligner.py line 277). -/
def insert_a_count (ms : List PageMatch) : Nat :=
  ms.countP (fun m => m.match_type == "insert_a")

/-- `insert_b = sum(1 for m in matches if m.match_type == "insert_b")`
(page_aligner.py line 278). -/
def insert_b_count (ms : List PageMatch) : Nat :=
  ms.countP (fun m => m.match_type == "insert_b")

/-- The list of distances of entries carrying one
(page_aligner.py line 280). -/
def carried_distances (ms : List PageMatch) : List Nat :=
  ms.filterMap (fun m => m.distance)

/-- `avg_dist = sum(distances) / len(distances) if distances else 0`
(page_aligner.py line 281); Python true division is embedded in `ℚ`. -/
def avg_distance (ms : List PageMatch) : ℚ :=
  if (carried_distances ms).length = 0 then 0
  else ((carried_distances ms).sum : ℚ) / ((carried_distances ms).length : ℚ)

/-- Small concrete pages used by witness statements. -/
def pgT : PageInfo := ⟨0, "0.jpg", [true, true, false, false], 0, 0⟩

/-- Small concrete page used by witness statements. -/
def pgU : PageInfo := ⟨1, "1.jpg", [false, false, true, true], 0, 0⟩

/-- 74-bit fingerprint with an 11-bit block set; distinct blocks are at
Hamming distance 22. -/
def blockVec (k : Nat) : List Bool :=
  (List.range 74).map (fun i => decide (11 * k ≤ i ∧ i < 11 * (k + 1)))

/-- Fingerprint at Hamming distance 30 from `blockVec 2` and 30 from
every other block vector. -/
def specVec : List Bool :=
  (List.range 74).map (fun i => decide (55 ≤ i))

/-- Page `k` of the concrete scenario. -/
def exPage (k : Nat) : PageInfo := ⟨k, toString k, blockVec k, 0, 0⟩

/-- The page of sequence B whose pair distance to `exPage 2` is 30. -/
def exSpecial : PageInfo := ⟨2, "2", specVec, 0, 0⟩

/-- Sequence A of the concrete scenario: five pages. -/
def exA : List PageInfo := [exPage 0, exPage 1, exPage 2, exPage 3, exPage 4]

/-- Sequence B of the concrete scenario: identical to A except at index 2,
where the pair distance is 30. -/
def exB : List PageInfo := [exPage 0, exPage 1, exSpecial, exPage 3, exPage 4]

/-- Expected alignment of the concrete scenario: indices 0,1,3,4 matched
with distance 0, the index-2 pair split into one b_only and one a_only
entry. -/
def c2Expected : List PageMatch :=
  [⟨some (exPage 0), some (exPage 0), some 0, "match"⟩,
   ⟨some (exPage 1), some (exPage 1), some 0, "match"⟩,
   ⟨none, some exSpecial, none, "insert_b"⟩,
   ⟨some (exPage 2), none, none, "insert_a"⟩,
   ⟨some (exPage 3), some (exPage 3), some 0, "match"⟩,
   ⟨some (exPage 4), some (exPage 4), some 0, "match"⟩]

/-- Indices of the A pages appearing in an entry list, in list order. -/
def idxA (l : List PageMatch) : List Nat :=
  l.filterMap (fun e => e.page_a.map PageInfo.index)

/-- Indices of the B pages appearing in an entry list, in list order. -/
def idxB (l : List PageMatch) : List Nat :=
  l.filterMap (fun e => e.page_b.map PageInfo.index)

/-- Auxiliary predicate of the traceback invariant: every element of `L`
is the index field of a page of `C` at a position below `i`, and `L` is
strictly decreasing. -/
def IdxFrom (C : List PageInfo) (i : Nat) (L : List Nat) : Prop :=
  (∀ x ∈ L, ∃ k, k < i ∧ x = (C.getD k default).index) ∧
  List.Pairwise (fun a b => b < a) L

/-- The §3 invariant of the data model: index fields strictly increase
along the sequence (`analyze_chapter` produces such sequences, with gaps
where fingerprinting failed). -/
def MonoIdx (C : List PageInfo) : Prop :=
  ∀ l, l < C.length → ∀ k, k < l →
    (C.getD k default).index < (C.getD l default).index

/-- The boolean selecting matched or weak_matched entries. -/
def isMW (m : PageMatch) : Bool :=
  m.match_type == "match" || m.match_type == "weak_match"

/-- Mirror of the `AlignedPage` dataclass of `prepare_chapter.py`.
`match_type` is one of "matched", "en_only", "es_only". -/
structure AlignedPage where
  index : Nat
  en_source : Option String
  es_source : Option String
  match_type : String
  distance : Option Nat
  deriving DecidableEq

/-- The page-mapping loop of `align_and_prepare` (prepare_chapter.py
lines 80-115): the accumulator is `page_idx` (starting at 1); entries of
unknown match type are skipped without advancing the index, matched and
weak_match entries are both relabelled "matched". -/
def align_and_prepare_pages : Nat → List PageMatch → List AlignedPage
  | _, [] => []
  | idx, m :: rest =>
    if m.match_type = "match" ∨ m.match_type = "weak_match" then
      ⟨idx, m.page_a.map PageInfo.filename, m.page_b.map PageInfo.filename,
        "matched", m.distance⟩ :: align_and_prepare_pages (idx+1) rest
    else if m.match_type = "insert_a" then
      ⟨idx, m.page_a.map PageInfo.filename, none, "en_only", none⟩ ::
        align_and_prepare_pages (idx+1) rest
    else if m.match_type = "insert_b" then
      ⟨idx, none, m.page_b.map PageInfo.filename, "es_only", none⟩ ::
        align_and_prepare_pages (idx+1) rest
    else align_and_prepare_pages idx rest

/-- The `matched` count of the manifest built by
`create_alignment_manifest` (prepare_chapter.py line 161). -/
def manifest_matched (pages : List AlignedPage) : Nat :=
  pages.countP (fun p => p.match_type == "matched")

/-- Cost contributed by one emitted entry: its stored distance for a
two-sided entry, one gap penalty for an insertion entry (a bad-match
diagonal contributes its 2·gapPenalty as two insertion entries). -/
def entryCost (t : Int) (e : PageMatch) : Int :=
  match e.distance with
  | some d => (d : Int)
  | none => GAP_PENALTY t

/-- Total cost of an emitted entry list. -/
def sumCost (t : Int) : List PageMatch → Int
  | [] => 0
  | e :: l => entryCost t e + sumCost t l

/-- Count of weak_matched entries. -/
def weak_count (ms : List PageMatch) : Nat :=
  ms.countP (fun m => m.match_type == "weak_match")

/-- `image_extensions` of `extract_pages` (page_aligner.py line 104):
note that it contains ".gif". -/
def image_extensions : List String :=
  [".jpg", ".jpeg", ".png", ".webp", ".gif"]

/-- The extension set used by `create_aligned_zip` (prepare_chapter.py
line 132): it does NOT contain ".gif". -/
def image_extensions_prepare : List String :=
  [".jpg", ".jpeg", ".png", ".webp"]

/-- Split a character list at every occurrence of a separator, keeping
empty segments (the semantics of Python's `str.split(sep)` and of
`String.splitOn` for a one-character separator). -/
def splitOnChar (sep : Char) : List Char → List (List Char)
  | [] => [[]]
  | c :: cs =>
    if c = sep then [] :: splitOnChar sep cs
    else
      match splitOnChar sep cs with
      | [] => [[c]]
      | h :: ts => (c :: h) :: ts

/-- ASCII lowercasing, the effect of Python's `str.lower()` on the
extension strings this code handles. -/
def str_toLower (s : String) : String := String.mk (s.data.map Char.toLower)

/-- `Path(name).suffix`: the final dotted extension of the last path
component, empty for names without a proper extension (no dot, trailing
dot, or a leading-dot-only name). -/
def path_suffix (name : String) : String :=
  let base := (splitOnChar '/' name.data).getLastD []
  let parts := splitOnChar '.' base
  if parts.length ≤ 1 then ""
  else
    let last := parts.getLastD []
    if last.isEmpty then ""
    else if parts.length = 2 ∧ (parts.getD 0 []).isEmpty then ""
    else String.mk ('.' :: last)

/-- `get_image_extension` (prepare_chapter.py lines 66-68). -/
def get_image_extension (filename : String) : String :=
  str_toLower (path_suffix filename)

/-- Strict lexicographic order on character lists by code point: the
order Python's `sorted` uses on strings. -/
def lexLtB : List Char → List Char → Bool
  | [], [] => false
  | [], _ :: _ => true
  | _ :: _, [] => false
  | a :: as, b :: bs =>
    if a < b then true else if b < a then false else lexLtB as bs

/-- Stable insertion into a sorted list of names, used to model Python's
`sorted` over the archive name list. -/
def insertSorted (s : String) : List String → List String
  | [] => [s]
  | x :: xs =>
    if lexLtB x.data s.data then x :: insertSorted s xs else s :: x :: xs

/-- `sorted(zf.namelist())`. -/
def sortStrings (l : List String) : List String :=
  l.foldr insertSorted []

/-- An archive is modelled as the ordered list of its
(name, byte payload) members; bytes are lists of byte values. -/
abbrev ZipFile : Type := List (String × List Nat)

/-- `extract_pages` (page_aligner.py lines 98-113): all members whose
lowercased suffix is an image extension, in sorted name order, with
their payloads. -/
def extract_pages (zipf : ZipFile) : List (String × List Nat) :=
  (sortStrings (zipf.map Prod.fst)).filterMap (fun n =>
    if image_extensions.contains (str_toLower (path_suffix n)) then
      (List.lookup n zipf).map (fun b => (n, b))
    else none)

/-- `analyze_chapter` (page_aligner.py lines 116-134), parametrized by
the fingerprinting function (`compute_phash` lives in external imaging
libraries; it is a pure function of the page bytes returning the hash
and the dimensions, or failing).  Pages whose fingerprinting fails are
dropped, but still consume an enumeration index. -/
def analyze_chapter (hashFn : List Nat → Option (List Bool × Nat × Nat))
    (zipf : ZipFile) : List PageInfo :=
  (extract_pages zipf).enum.filterMap (fun q =>
    (hashFn q.2.2).map (fun r => ⟨q.1, q.2.1, r.1, r.2.1, r.2.2⟩))

/-- The `source_images` dictionary of `create_aligned_zip`
(prepare_chapter.py lines 129-133): members restricted to the
gif-less extension set, looked up by name. -/
def source_images (source_zip : ZipFile) : List (String × List Nat) :=
  source_zip.filter
    (fun q => image_extensions_prepare.contains (str_toLower (path_suffix q.1)))

/-- Decimal digit characters of `n`, most significant first; the first
argument is recursion fuel (any value above the digit count works). -/
def natDigitsAux : Nat → Nat → List Char
  | 0, _ => []
  | fuel+1, n =>
    if n < 10 then [Nat.digitChar n]
    else natDigitsAux fuel (n / 10) ++ [Nat.digitChar (n % 10)]

/-- Decimal rendering of a natural number. -/
def natToString (n : Nat) : String := String.mk (natDigitsAux (n+1) n)

/-- `f"{page.index:03d}"`: decimal digits zero-padded to width 3. -/
def pad3 (k : Nat) : String :=
  let s := natToString k
  if s.length < 3 then String.mk (List.replicate (3 - s.length) '0') ++ s
  else s

/-- `create_aligned_zip` (prepare_chapter.py lines 118-149): for each
aligned page carrying a payload name for the requested side that occurs
in the (extension-filtered) source dictionary, write the payload bytes
under the zero-padded 1-based position plus the original extension. -/
def create_aligned_zip (source_zip : ZipFile)
    (aligned_pages : List AlignedPage) (lang : String) : ZipFile :=
  aligned_pages.filterMap (fun page =>
    match (if lang = "en" then page.en_source else page.es_source) with
    | none => none
    | some source_name =>
      match List.lookup source_name (source_images source_zip) with
      | none => none
      | some data =>
        some (pad3 page.index ++ get_image_extension source_name, data))

/-- A fingerprinting function that succeeds on every input with an empty
hash: enough to drive the pipeline on concrete archives, since identical
bytes hash identically. -/
def constHash : List Nat → Option (List Bool × Nat × Nat) :=
  fun _ => some ([], 0, 0)

/-- A one-page archive whose page is a ".gif" image. -/
def gifZip : ZipFile := [("a.gif", [1, 2, 3])]

/-- A one-page archive whose page is a ".jpg" image. -/
def jpgZip : ZipFile := [("a.jpg", [7])]

/-! ## Lemmas and claim theorems -/

lemma hash_distance_self (h : List Bool) : hash_distance h h = 0 := by
  induction h with
  | nil => rfl
  | cons a l ih =>
    simp only [hash_distance, List.zipWith_cons_cons, List.count_cons] at ih ⊢
    simpa using ih

lemma dist_diag_eq_zero (A : List PageInfo) (k : Nat) : distMatrix A A k k = 0 := by
  simp [distMatrix, hash_distance_self]

/-- Pair induction principle matching the dependency order of the table
fill and of the traceback loop. -/
lemma pair_induction (motive : Nat → Nat → Prop) (h00 : motive 0 0)
    (hrow : ∀ i, motive i 0 → motive (i+1) 0)
    (hcol : ∀ j, motive 0 j → motive 0 (j+1))
    (hsucc : ∀ i j, motive i j → motive i (j+1) → motive (i+1) j →
      motive (i+1) (j+1)) :
    ∀ i j, motive i j := by
  intro i
  induction i with
  | zero =>
    intro j
    induction j with
    | zero => exact h00
    | succ l ihj => exact hcol l ihj
  | succ k ihi =>
    intro j
    induction j with
    | zero => exact hrow k (ihi 0)
    | succ l ihj => exact hsucc k l (ihi l) (ihi (l+1)) ihj

lemma dp_zero_zero (A B : List PageInfo) (t : Int) : dp A B t 0 0 = 0 := rfl

lemma dp_row (A B : List PageInfo) (t : Int) (i : Nat) :
    dp A B t (i+1) 0 = ((i + 1 : Nat) : Int) * GAP_PENALTY t := rfl

lemma dp_col (A B : List PageInfo) (t : Int) (j : Nat) :
    dp A B t 0 (j+1) = ((j + 1 : Nat) : Int) * GAP_PENALTY t := rfl

lemma dp_succ (A B : List PageInfo) (t : Int) (i j : Nat) :
    dp A B t (i+1) (j+1) =
      min (dp A B t i j + subCost A B t i j)
        (min (dp A B t i (j+1) + GAP_PENALTY t)
          (dp A B t (i+1) j + GAP_PENALTY t)) := rfl

lemma dp_row_step (A B : List PageInfo) (t : Int) (i : Nat) :
    dp A B t (i+1) 0 = dp A B t i 0 + GAP_PENALTY t := by
  cases i with
  | zero => rw [dp_row, dp_zero_zero]; push_cast; ring
  | succ k => rw [dp_row, dp_row]; push_cast; ring

lemma dp_col_step (A B : List PageInfo) (t : Int) (j : Nat) :
    dp A B t 0 (j+1) = dp A B t 0 j + GAP_PENALTY t := by
  cases j with
  | zero => rw [dp_col, dp_zero_zero]; push_cast; ring
  | succ k => rw [dp_col, dp_col]; push_cast; ring

/-- The `INF`-placeholder table and the placeholder-free table agree:
no in-range cell ever keeps the placeholder. -/
lemma dpTable_eq_dp (A B : List PageInfo) (t : Int) :
    ∀ i j, dpTable A B t i j = some (dp A B t i j) := by
  refine pair_induction _ ?_ ?_ ?_ ?_
  · rw [dpTable]; rfl
  · intro i _; rw [dpTable, dp_row]
  · intro j _; rw [dpTable, dp_col]
  · intro i j ih1 ih2 ih3
    rw [dpTable, ih1, ih2, ih3, dp_succ]
    by_cases hd : ((distMatrix A B i j : Int)) ≤ t <;>
      simp [omin, oadd, subCost, hd, min_assoc]

/-- C1: for non-empty fingerprint sequences and any integer threshold, the
cost table filled by align_sequences satisfies exactly the stated
recurrence: dp[0][0] = 0, dp[i][0] = i·(threshold+5), dp[0][j] =
j·(threshold+5), and for i,j ≥ 1 the minimum of the diagonal option (the
pair distance when within threshold, else 2·(threshold+5)) and the two
gap options.  The first conjunct links the faithful INF-placeholder table
to the placeholder-free values the recurrence speaks about. -/
theorem claim_C1 (A B : List PageInfo) (t : Int) (hA : A ≠ []) (hB : B ≠ [])
    (i j : Nat) (hi : i ≤ A.length) (hj : j ≤ B.length) :
    dpTable A B t i j = some (dp A B t i j) ∧
    dp A B t 0 0 = 0 ∧
    (1 ≤ i → dp A B t i 0 = (i : Int) * (t + 5)) ∧
    (1 ≤ j → dp A B t 0 j = (j : Int) * (t + 5)) ∧
    (1 ≤ i → 1 ≤ j →
      dp A B t i j =
        min (dp A B t (i-1) (j-1) +
            (if ((distMatrix A B (i-1) (j-1) : Int)) ≤ t then
              (distMatrix A B (i-1) (j-1) : Int)
             else 2 * (t + 5)))
          (min (dp A B t (i-1) j + (t + 5)) (dp A B t i (j-1) + (t + 5)))) := by
  refine ⟨dpTable_eq_dp A B t i j, dp_zero_zero A B t, ?_, ?_, ?_⟩
  · intro h1
    cases i with
    | zero => omega
    | succ k => rw [dp_row]; simp [GAP_PENALTY]
  · intro h1
    cases j with
    | zero => omega
    | succ k => rw [dp_col]; simp [GAP_PENALTY]
  · intro h1 h2
    cases i with
    | zero => omega
    | succ k =>
      cases j with
      | zero => omega
      | succ l =>
        simp only [Nat.add_sub_cancel]
        rw [dp_succ]
        have hsub : subCost A B t k l =
            (if ((distMatrix A B k l : Int)) ≤ t then (distMatrix A B k l : Int)
             else 2 * (t + 5)) := by
          simp only [subCost, GAP_PENALTY]
          split <;> ring
        rw [hsub]
        simp [GAP_PENALTY]

/-- Witness for C1 at a concrete table cell. -/
theorem claim_C1_witness :
    dp [pgT] [pgU] 7 1 1 =
      min (dp [pgT] [pgU] 7 0 0 +
          (if ((distMatrix [pgT] [pgU] 0 0 : Int)) ≤ 7 then
            (distMatrix [pgT] [pgU] 0 0 : Int)
           else 2 * (7 + 5)))
        (min (dp [pgT] [pgU] 7 0 1 + (7 + 5)) (dp [pgT] [pgU] 7 1 0 + (7 + 5))) :=
  (claim_C1 [pgT] [pgU] 7 (by decide) (by decide) 1 1 (by decide)
    (by decide)).2.2.2.2 (by decide) (by decide)

lemma tb_zero_zero (A B : List PageInfo) (t : Int) :
    traceback A B t 0 0 = [] := rfl

lemma tb_col (A B : List PageInfo) (t : Int) (j : Nat) :
    traceback A B t 0 (j+1) =
      ⟨none, some (B.getD j default), none, "insert_b"⟩ ::
        traceback A B t 0 j := rfl

lemma tb_row (A B : List PageInfo) (t : Int) (i : Nat) :
    traceback A B t (i+1) 0 =
      if dp A B t (i+1) 0 = dp A B t i 0 + GAP_PENALTY t then
        ⟨some (A.getD i default), none, none, "insert_a"⟩ ::
          traceback A B t i 0
      else [] := rfl

lemma tb_succ (A B : List PageInfo) (t : Int) (i j : Nat) :
    traceback A B t (i+1) (j+1) =
      (if ((distMatrix A B i j : Nat) : Int) ≤ t ∧
          dp A B t (i+1) (j+1) = dp A B t i j + ((distMatrix A B i j : Nat) : Int) then
        ⟨some (A.getD i default), some (B.getD j default), some (distMatrix A B i j),
          if ((distMatrix A B i j : Nat) : Int) ≤ Int.fdiv t 2 then "match"
          else "weak_match"⟩ :: traceback A B t i j
      else if t < ((distMatrix A B i j : Nat) : Int) ∧
          dp A B t (i+1) (j+1) = dp A B t i j + GAP_PENALTY t * 2 then
        ⟨some (A.getD i default), none, none, "insert_a"⟩ ::
          ⟨none, some (B.getD j default), none, "insert_b"⟩ ::
          traceback A B t i j
      else if dp A B t (i+1) (j+1) = dp A B t i (j+1) + GAP_PENALTY t then
        ⟨some (A.getD i default), none, none, "insert_a"⟩ ::
          traceback A B t i (j+1)
      else
        ⟨none, some (B.getD j default), none, "insert_b"⟩ ::
          traceback A B t (i+1) j) := rfl

set_option maxRecDepth 100000 in
/-- C2: on the bad-match diagonal branch (pair distance strictly greater
than the threshold, diagonal recurrence equation confirmed), the
traceback emits two entries — an a_only entry carrying only the A page
and a b_only entry carrying only the B page, both with no distance — and
consumes one index of A plus one index of B (the state drops from
(i+1, j+1) to (i, j)).  In the concrete five-page scenario with the
index-2 pair at distance 30 and threshold 20, the result has 6 entries,
4 of them matched with distance 0. -/
theorem claim_C2 :
    (∀ (A B : List PageInfo) (t : Int) (i j : Nat),
      t < ((distMatrix A B i j : Nat) : Int) →
      dp A B t (i+1) (j+1) = dp A B t i j + GAP_PENALTY t * 2 →
      traceback A B t (i+1) (j+1) =
        ⟨some (A.getD i default), none, none, "insert_a"⟩ ::
          ⟨none, some (B.getD j default), none, "insert_b"⟩ ::
          traceback A B t i j) ∧
    align_sequences exA exB 20 = c2Expected ∧
    (align_sequences exA exB 20).length = 6 ∧
    (align_sequences exA exB 20).countP
      (fun e => e.match_type == "match" && e.distance == some 0) = 4 := by
  refine ⟨?_, by decide, by decide, by decide⟩
  intro A B t i j h1 h2
  have hno : ¬(((distMatrix A B i j : Nat) : Int) ≤ t ∧
      dp A B t (i+1) (j+1) = dp A B t i j + ((distMatrix A B i j : Nat) : Int)) :=
    fun hc => absurd hc.1 (not_le.mpr h1)
  rw [tb_succ, if_neg hno, if_pos ⟨h1, h2⟩]

set_option maxRecDepth 100000 in
/-- Witness for C2's universally quantified part, at the bad-match cell
(3,3) of the concrete scenario. -/
theorem claim_C2_witness :
    traceback exA exB 20 3 3 =
      ⟨some (exA.getD 2 default), none, none, "insert_a"⟩ ::
        ⟨none, some (exB.getD 2 default), none, "insert_b"⟩ ::
        traceback exA exB 20 2 2 :=
  claim_C2.1 exA exB 20 2 2 (by decide) (by decide)

/-- C3: on the within-threshold diagonal branch (pair distance d ≤
threshold, diagonal recurrence equation confirmed), the traceback emits
exactly one entry with both pages set and distance d, whose outcome is
"match" if d ≤ threshold/2 (floor division) and "weak_match" otherwise,
and consumes one index from each side. -/
theorem claim_C3 (A B : List PageInfo) (t : Int) (i j : Nat)
    (h1 : ((distMatrix A B i j : Nat) : Int) ≤ t)
    (h2 : dp A B t (i+1) (j+1) = dp A B t i j + ((distMatrix A B i j : Nat) : Int)) :
    traceback A B t (i+1) (j+1) =
      ⟨some (A.getD i default), some (B.getD j default), some (distMatrix A B i j),
        if ((distMatrix A B i j : Nat) : Int) ≤ Int.fdiv t 2 then "match"
        else "weak_match"⟩ :: traceback A B t i j := by
  rw [tb_succ, if_pos ⟨h1, h2⟩]

set_option maxRecDepth 100000 in
/-- Witness for C3 at the within-threshold cell (5,5) of the concrete
scenario. -/
theorem claim_C3_witness :
    traceback exA exB 20 5 5 =
      ⟨some (exA.getD 4 default), some (exB.getD 4 default),
        some (distMatrix exA exB 4 4),
        if ((distMatrix exA exB 4 4 : Nat) : Int) ≤ Int.fdiv 20 2 then "match"
        else "weak_match"⟩ :: traceback exA exB 20 4 4 :=
  claim_C3 exA exB 20 4 4 (by decide) (by decide)

/-- C8: empty-input edge cases of align_sequences: both empty gives the
empty list; A empty gives |B| b_only entries carrying B's pages in order;
B empty gives |A| a_only entries in A's order.  The function is total, so
no error is raised on empty input. -/
theorem claim_C8 (A B : List PageInfo) (t : Int) :
    align_sequences [] [] t = [] ∧
    (B ≠ [] → align_sequences [] B t =
      B.map (fun pb => ⟨none, some pb, none, "insert_b"⟩)) ∧
    (A ≠ [] → align_sequences A [] t =
      A.map (fun pa => ⟨some pa, none, none, "insert_a"⟩)) := by
  refine ⟨rfl, ?_, ?_⟩
  · intro hB
    simp [align_sequences, List.length_eq_zero, hB]
  · intro hA
    simp [align_sequences, List.length_eq_zero, hA]

/-- Witness for C8 on concrete one-page sequences. -/
theorem claim_C8_witness :
    align_sequences [] [pgU] 20 =
      [pgU].map (fun pb => ⟨none, some pb, none, "insert_b"⟩) ∧
    align_sequences [pgT] [] 20 =
      [pgT].map (fun pa => ⟨some pa, none, none, "insert_a"⟩) :=
  ⟨(claim_C8 [pgT] [pgU] 20).2.1 (by decide), (claim_C8 [pgT] [pgU] 20).2.2 (by decide)⟩

lemma idxA_cons_some (p : PageInfo) (ob : Option PageInfo) (od : Option Nat)
    (mt : String) (l : List PageMatch) :
    idxA (⟨some p, ob, od, mt⟩ :: l) = p.index :: idxA l := by
  simp [idxA]

lemma idxA_cons_none (ob : Option PageInfo) (od : Option Nat)
    (mt : String) (l : List PageMatch) :
    idxA (⟨none, ob, od, mt⟩ :: l) = idxA l := by
  simp [idxA]

lemma idxB_cons_some (p : PageInfo) (oa : Option PageInfo) (od : Option Nat)
    (mt : String) (l : List PageMatch) :
    idxB (⟨oa, some p, od, mt⟩ :: l) = p.index :: idxB l := by
  simp [idxB]

lemma idxB_cons_none (oa : Option PageInfo) (od : Option Nat)
    (mt : String) (l : List PageMatch) :
    idxB (⟨oa, none, od, mt⟩ :: l) = idxB l := by
  simp [idxB]

lemma idxFrom_cons {C : List PageInfo} {i : Nat} {L : List Nat}
    (hC : MonoIdx C) (hi : i < C.length) (h : IdxFrom C i L) :
    IdxFrom C (i+1) ((C.getD i default).index :: L) := by
  constructor
  · intro x hx
    rcases List.mem_cons.mp hx with rfl | hx2
    · exact ⟨i, by omega, rfl⟩
    · obtain ⟨k, hk, hkx⟩ := h.1 x hx2
      exact ⟨k, by omega, hkx⟩
  · refine List.pairwise_cons.mpr ⟨?_, h.2⟩
    intro b hb
    obtain ⟨k, hk, rfl⟩ := h.1 b hb
    exact hC i hi k hk

lemma idxFrom_weaken {C : List PageInfo} {i : Nat} {L : List Nat}
    (h : IdxFrom C i L) : IdxFrom C (i+1) L := by
  refine ⟨?_, h.2⟩
  intro x hx
  obtain ⟨k, hk, hkx⟩ := h.1 x hx
  exact ⟨k, by omega, hkx⟩

/-- Along the traceback (which runs end-to-start), consumed A indices are
strictly decreasing and drawn from positions below the current loop
state. -/
lemma tb_idxA (A B : List PageInfo) (t : Int) (hA : MonoIdx A) :
    ∀ i j, i ≤ A.length → IdxFrom A i (idxA (traceback A B t i j)) := by
  refine pair_induction _ ?_ ?_ ?_ ?_
  · intro _
    exact ⟨by simp [tb_zero_zero, idxA], by simp [tb_zero_zero, idxA]⟩
  · intro i ih hi
    rw [tb_row, if_pos (dp_row_step A B t i)]
    rw [idxA_cons_some]
    exact idxFrom_cons hA (by omega) (ih (by omega))
  · intro j ih hi
    rw [tb_col, idxA_cons_none]
    exact ih hi
  · intro i j ih1 ih2 ih3 hi
    have hii : i ≤ A.length := by omega
    rw [tb_succ]
    by_cases hc1 : ((distMatrix A B i j : Nat) : Int) ≤ t ∧
        dp A B t (i+1) (j+1) = dp A B t i j + ((distMatrix A B i j : Nat) : Int)
    · rw [if_pos hc1, idxA_cons_some]
      exact idxFrom_cons hA (by omega) (ih1 hii)
    · rw [if_neg hc1]
      by_cases hc2 : t < ((distMatrix A B i j : Nat) : Int) ∧
          dp A B t (i+1) (j+1) = dp A B t i j + GAP_PENALTY t * 2
      · rw [if_pos hc2, idxA_cons_some, idxA_cons_none]
        exact idxFrom_cons hA (by omega) (ih1 hii)
      · rw [if_neg hc2]
        by_cases hc3 : dp A B t (i+1) (j+1) = dp A B t i (j+1) + GAP_PENALTY t
        · rw [if_pos hc3, idxA_cons_some]
          exact idxFrom_cons hA (by omega) (ih2 hii)
        · rw [if_neg hc3, idxA_cons_none]
          exact ih3 hi

/-- Along the traceback, consumed B indices are strictly decreasing and
drawn from positions below the current loop state. -/
lemma tb_idxB (A B : List PageInfo) (t : Int) (hB : MonoIdx B) :
    ∀ i j, j ≤ B.length → IdxFrom B j (idxB (traceback A B t i j)) := by
  refine pair_induction _ ?_ ?_ ?_ ?_
  · intro _
    exact ⟨by simp [tb_zero_zero, idxB], by simp [tb_zero_zero, idxB]⟩
  · intro i ih hj
    rw [tb_row, if_pos (dp_row_step A B t i), idxB_cons_none]
    exact ih hj
  · intro j ih hj
    rw [tb_col, idxB_cons_some]
    exact idxFrom_cons hB (by omega) (ih (by omega))
  · intro i j ih1 ih2 ih3 hj
    have hjj : j ≤ B.length := by omega
    rw [tb_succ]
    by_cases hc1 : ((distMatrix A B i j : Nat) : Int) ≤ t ∧
        dp A B t (i+1) (j+1) = dp A B t i j + ((distMatrix A B i j : Nat) : Int)
    · rw [if_pos hc1, idxB_cons_some]
      exact idxFrom_cons hB (by omega) (ih1 hjj)
    · rw [if_neg hc1]
      by_cases hc2 : t < ((distMatrix A B i j : Nat) : Int) ∧
          dp A B t (i+1) (j+1) = dp A B t i j + GAP_PENALTY t * 2
      · rw [if_pos hc2, idxB_cons_none, idxB_cons_some]
        exact idxFrom_cons hB (by omega) (ih1 hjj)
      · rw [if_neg hc2]
        by_cases hc3 : dp A B t (i+1) (j+1) = dp A B t i (j+1) + GAP_PENALTY t
        · rw [if_pos hc3, idxB_cons_none]
          exact ih2 hj
        · rw [if_neg hc3, idxB_cons_some]
          exact idxFrom_cons hB (by omega) (ih3 hjj)

lemma idxA_reverse (l : List PageMatch) : idxA l.reverse = (idxA l).reverse := by
  simp [idxA, List.filterMap_reverse]

lemma idxB_reverse (l : List PageMatch) : idxB l.reverse = (idxB l).reverse := by
  simp [idxB, List.filterMap_reverse]

lemma filterMap_none_eq_nil {a b : Type} (l : List a) :
    List.filterMap (fun _ => (none : Option b)) l = [] := by
  induction l with
  | nil => rfl
  | cons x xs ih => simp [List.filterMap_cons, ih]

lemma filterMap_some_index (l : List PageInfo) :
    List.filterMap (fun x => some x.index) l = l.map PageInfo.index := by
  induction l with
  | nil => rfl
  | cons x xs ih => simp [List.filterMap_cons, ih]

/-- Sequences with strictly increasing index fields have a sorted index
projection. -/
lemma indices_sorted (C : List PageInfo) (hC : MonoIdx C) :
    List.Sorted (· ≤ ·) (C.map PageInfo.index) := by
  rw [List.Sorted, List.pairwise_iff_get]
  intro a b hab
  have ha1 : (a : Nat) < C.length := by
    have := a.2; simpa using this
  have hb1 : (b : Nat) < C.length := by
    have := b.2; simpa using this
  have ha : ((C.map PageInfo.index).get a) = (C.getD a.1 default).index := by
    rw [List.get_map, List.getD_eq_get C default ha1]
  have hb : ((C.map PageInfo.index).get b) = (C.getD b.1 default).index := by
    rw [List.get_map, List.getD_eq_get C default hb1]
  rw [ha, hb]
  exact le_of_lt (hC b.1 hb1 a.1 hab)

/-- C4: for input sequences whose index fields strictly increase along
the sequence (the data-model invariant all pipeline-produced sequences
satisfy) and every threshold, the entry list returned by align_sequences
is a monotonic interleaving: the indices of A pages appearing in entries
are non-decreasing start to end, likewise for B pages, and the same
holds after restricting to the matched/weak_matched entries. -/
theorem claim_C4 (A B : List PageInfo) (t : Int)
    (hA : MonoIdx A) (hB : MonoIdx B) :
    List.Sorted (· ≤ ·) (idxA (align_sequences A B t)) ∧
    List.Sorted (· ≤ ·) (idxB (align_sequences A B t)) ∧
    List.Sorted (· ≤ ·) (idxA ((align_sequences A B t).filter
      (fun e => e.match_type == "match" || e.match_type == "weak_match"))) ∧
    List.Sorted (· ≤ ·) (idxB ((align_sequences A B t).filter
      (fun e => e.match_type == "match" || e.match_type == "weak_match"))) := by
  have main : List.Sorted (· ≤ ·) (idxA (align_sequences A B t)) ∧
      List.Sorted (· ≤ ·) (idxB (align_sequences A B t)) := by
    unfold align_sequences
    by_cases h0 : A.length = 0 ∧ B.length = 0
    · rw [if_pos h0]
      exact ⟨by simp [idxA], by simp [idxB]⟩
    · rw [if_neg h0]
      by_cases hA0 : A.length = 0
      · rw [if_pos hA0]
        constructor
        · simp [idxA, List.filterMap_map, Function.comp_def, List.Sorted,
            filterMap_none_eq_nil]
        · have : idxB (B.map fun pb =>
              (⟨none, some pb, none, "insert_b"⟩ : PageMatch)) =
              B.map PageInfo.index := by
            simp [idxB, List.filterMap_map, Function.comp_def,
              filterMap_some_index]
          rw [this]
          exact indices_sorted B hB
      · rw [if_neg hA0]
        by_cases hB0 : B.length = 0
        · rw [if_pos hB0]
          constructor
          · have : idxA (A.map fun pa =>
                (⟨some pa, none, none, "insert_a"⟩ : PageMatch)) =
                A.map PageInfo.index := by
              simp [idxA, List.filterMap_map, Function.comp_def,
                filterMap_some_index]
            rw [this]
            exact indices_sorted A hA
          · simp [idxB, List.filterMap_map, Function.comp_def, List.Sorted,
              filterMap_none_eq_nil]
        · rw [if_neg hB0]
          constructor
          · rw [idxA_reverse, List.Sorted, List.pairwise_reverse]
            exact ((tb_idxA A B t hA A.length B.length le_rfl).2).imp
              (fun h => le_of_lt h)
          · rw [idxB_reverse, List.Sorted, List.pairwise_reverse]
            exact ((tb_idxB A B t hB A.length B.length le_rfl).2).imp
              (fun h => le_of_lt h)
  refine ⟨main.1, main.2, ?_, ?_⟩
  · exact List.Pairwise.sublist
      (List.Sublist.filterMap _ (List.filter_sublist _)) main.1
  · exact List.Pairwise.sublist
      (List.Sublist.filterMap _ (List.filter_sublist _)) main.2

set_option maxRecDepth 100000 in
/-- Witness for C4 on the concrete five-page scenario. -/
theorem claim_C4_witness :
    List.Sorted (· ≤ ·) (idxA (align_sequences exA exB 20)) ∧
    List.Sorted (· ≤ ·) (idxB (align_sequences exA exB 20)) ∧
    List.Sorted (· ≤ ·) (idxA ((align_sequences exA exB 20).filter
      (fun e => e.match_type == "match" || e.match_type == "weak_match"))) ∧
    List.Sorted (· ≤ ·) (idxB ((align_sequences exA exB 20).filter
      (fun e => e.match_type == "match" || e.match_type == "weak_match"))) :=
  claim_C4 exA exB 20 (by unfold MonoIdx; decide) (by unfold MonoIdx; decide)

lemma gap_pos (t : Int) (ht : 0 ≤ t) : 0 < GAP_PENALTY t := by
  unfold GAP_PENALTY; omega

lemma subCost_nonneg (A B : List PageInfo) (t : Int) (i j : Nat) (ht : 0 ≤ t) :
    0 ≤ subCost A B t i j := by
  unfold subCost
  split
  · exact Int.natCast_nonneg _
  · have := gap_pos t ht; omega

lemma dp_nonneg (A B : List PageInfo) (t : Int) (ht : 0 ≤ t) :
    ∀ i j, 0 ≤ dp A B t i j := by
  refine pair_induction _ ?_ ?_ ?_ ?_
  · simp [dp_zero_zero]
  · intro i _
    rw [dp_row]
    exact mul_nonneg (Int.natCast_nonneg _) (le_of_lt (gap_pos t ht))
  · intro j _
    rw [dp_col]
    exact mul_nonneg (Int.natCast_nonneg _) (le_of_lt (gap_pos t ht))
  · intro i j ih1 ih2 ih3
    rw [dp_succ]
    have h1 := subCost_nonneg A B t i j ht
    have hg := le_of_lt (gap_pos t ht)
    exact le_min (by omega) (le_min (by omega) (by omega))

lemma dp_ge_gap_mul (A B : List PageInfo) (t : Int) (ht : 0 ≤ t) :
    ∀ (i j : Nat), GAP_PENALTY t * ((j : Int) - (i : Int)) ≤ dp A B t i j := by
  have hg := le_of_lt (gap_pos t ht)
  refine pair_induction _ ?_ ?_ ?_ ?_
  · simp [dp_zero_zero]
  · intro i _
    rw [dp_row]
    have h1 : 0 ≤ ((i + 1 : Nat) : Int) * GAP_PENALTY t :=
      mul_nonneg (Int.natCast_nonneg _) hg
    have h2 : GAP_PENALTY t * ((0 : Int) - ((i+1 : Nat) : Int)) =
        -(((i + 1 : Nat) : Int) * GAP_PENALTY t) := by ring
    push_cast at h1 h2 ⊢
    omega
  · intro j _
    rw [dp_col]
    have h2 : GAP_PENALTY t * (((j+1 : Nat) : Int) - (0 : Int)) =
        ((j + 1 : Nat) : Int) * GAP_PENALTY t := by ring
    push_cast at h2 ⊢
    omega
  · intro i j ih1 ih2 ih3
    rw [dp_succ]
    have hs := subCost_nonneg A B t i j ht
    refine le_min ?_ (le_min ?_ ?_)
    · have e : GAP_PENALTY t * (((j+1 : Nat) : Int) - ((i+1 : Nat) : Int)) =
          GAP_PENALTY t * ((j : Int) - (i : Int)) := by push_cast; ring
      rw [e]; omega
    · have e : GAP_PENALTY t * (((j+1 : Nat) : Int) - (i : Int)) =
          GAP_PENALTY t * (((j+1 : Nat) : Int) - ((i+1 : Nat) : Int)) +
            GAP_PENALTY t := by push_cast; ring
      omega
    · have e : GAP_PENALTY t * ((j : Int) - ((i+1 : Nat) : Int)) +
          GAP_PENALTY t =
          GAP_PENALTY t * (((j+1 : Nat) : Int) - ((i+1 : Nat) : Int)) := by
        push_cast; ring
      omega

lemma subCost_diag_zero (A : List PageInfo) (t : Int) (ht : 0 ≤ t) (k : Nat) :
    subCost A A t k k = 0 := by
  unfold subCost
  rw [dist_diag_eq_zero]
  simp [ht]

lemma dp_self_diag (A : List PageInfo) (t : Int) (ht : 0 ≤ t) :
    ∀ k, dp A A t k k = 0 := by
  intro k
  induction k with
  | zero => exact dp_zero_zero A A t
  | succ k ih =>
    rw [dp_succ, subCost_diag_zero A t ht, ih]
    have h1 : (0 : Int) ≤ dp A A t k (k+1) + GAP_PENALTY t := by
      have := dp_nonneg A A t ht k (k+1)
      have := le_of_lt (gap_pos t ht)
      omega
    have h2 : (0 : Int) ≤ dp A A t (k+1) k + GAP_PENALTY t := by
      have := dp_nonneg A A t ht (k+1) k
      have := le_of_lt (gap_pos t ht)
      omega
    have hz : (0 : Int) + 0 = 0 := by ring
    rw [hz, min_eq_left (le_min h1 h2)]

lemma traceback_self (A : List PageInfo) (t : Int) (ht : 0 ≤ t) :
    ∀ k, k ≤ A.length →
      traceback A A t k k =
        ((A.take k).map
          (fun p => (⟨some p, some p, some 0, "match"⟩ : PageMatch))).reverse := by
  intro k
  induction k with
  | zero => intro _; simp [tb_zero_zero]
  | succ k ih =>
    intro hk
    have hklt : k < A.length := by omega
    have hd0 : distMatrix A A k k = 0 := dist_diag_eq_zero A k
    have hcond : ((distMatrix A A k k : Nat) : Int) ≤ t ∧
        dp A A t (k+1) (k+1) = dp A A t k k + ((distMatrix A A k k : Nat) : Int) := by
      rw [hd0, dp_self_diag A t ht, dp_self_diag A t ht]
      simp [ht]
    rw [tb_succ, if_pos hcond, ih (by omega)]
    have hfd : ((distMatrix A A k k : Nat) : Int) ≤ Int.fdiv t 2 := by
      rw [hd0]
      simpa using Int.fdiv_nonneg ht (by omega)
    rw [if_pos hfd, hd0, List.getD_eq_getElem A default hklt]
    simp only [List.map_take]
    rw [List.take_succ, List.getElem?_map, List.getElem?_eq_getElem hklt]
    simp

/-- Self-alignment of any fingerprint sequence under any threshold ≥ 0:
every page is matched with itself at distance 0, in order. -/
lemma align_self (A : List PageInfo) (t : Int) (ht : 0 ≤ t) :
    align_sequences A A t =
      A.map (fun p => (⟨some p, some p, some 0, "match"⟩ : PageMatch)) := by
  unfold align_sequences
  by_cases h0 : A.length = 0
  · rcases List.length_eq_zero.mp h0 with rfl
    simp
  · rw [if_neg (by tauto), if_neg h0, if_neg h0,
      traceback_self A t ht A.length le_rfl]
    simp

/-- C7: aligning a sequence with itself at any threshold ≥ 0 yields |A|
entries, each matching a page of A with itself at distance 0, in order. -/
theorem claim_C7 (A : List PageInfo) (t : Int) (ht : 0 ≤ t) :
    align_sequences A A t =
      A.map (fun p => (⟨some p, some p, some 0, "match"⟩ : PageMatch)) ∧
    (align_sequences A A t).length = A.length := by
  refine ⟨align_self A t ht, ?_⟩
  rw [align_self A t ht, List.length_map]

/-- Witness for C7 on a concrete two-page sequence. -/
theorem claim_C7_witness :
    align_sequences [pgT, pgU] [pgT, pgU] 20 =
      [pgT, pgU].map (fun p => (⟨some p, some p, some 0, "match"⟩ : PageMatch)) ∧
    (align_sequences [pgT, pgU] [pgT, pgU] 20).length = 2 :=
  claim_C7 [pgT, pgU] 20 (by decide)

/-- Under the well-formedness invariant (an entry carries a distance iff
it is matched or weak_matched), the carried distances are precisely the
distances of the matched/weak_matched entries, in order. -/
lemma carried_eq_filter (ms : List PageMatch)
    (h : ∀ m ∈ ms, m.distance.isSome = true ↔
      (m.match_type = "match" ∨ m.match_type = "weak_match")) :
    carried_distances ms =
      (ms.filter isMW).map (fun m => m.distance.getD 0) := by
  induction ms with
  | nil => rfl
  | cons m l ih =>
    have hm := h m (List.mem_cons_self m l)
    have hl : ∀ x ∈ l, x.distance.isSome = true ↔
        (x.match_type = "match" ∨ x.match_type = "weak_match") :=
      fun x hx => h x (List.mem_cons_of_mem m hx)
    rcases hd : m.distance with _ | d
    · have hnw : ¬(m.match_type = "match" ∨ m.match_type = "weak_match") := by
        rw [← hm, hd]
        simp
      push_neg at hnw
      have hb : isMW m = false := by
        unfold isMW
        simp [hnw.1, hnw.2]
      rw [show carried_distances (m :: l) = carried_distances l from by
        simp [carried_distances, List.filterMap_cons, hd]]
      rw [show List.filter isMW (m :: l) = List.filter isMW l from by
        simp [List.filter_cons, hb]]
      exact ih hl
    · have hb : isMW m = true := by
        have hw : m.match_type = "match" ∨ m.match_type = "weak_match" := by
          rw [← hm, hd]
          simp
        unfold isMW
        rcases hw with hw | hw <;> simp [hw]
      rw [show carried_distances (m :: l) = d :: carried_distances l from by
        simp [carried_distances, List.filterMap_cons, hd]]
      rw [show List.filter isMW (m :: l) = m :: List.filter isMW l from by
        simp [List.filter_cons, hb]]
      rw [List.map_cons, ih hl, hd]
      rfl

/-- C5: matchedCount counts only outcome "match" (weak matches excluded),
while the mean distance is taken over all entries carrying a distance,
which under the well-formedness invariant are exactly the matched and
weak_matched entries together. -/
theorem claim_C5 (ms : List PageMatch)
    (h : ∀ m ∈ ms, m.distance.isSome = true ↔
      (m.match_type = "match" ∨ m.match_type = "weak_match")) :
    matched_count ms = (ms.filter (fun m => m.match_type == "match")).length ∧
    avg_distance ms =
      (if (ms.filter isMW).length = 0 then 0
       else (((ms.filter isMW).map (fun m => m.distance.getD 0)).sum : ℚ) /
         ((ms.filter isMW).length : ℚ)) := by
  constructor
  · exact List.countP_eq_length_filter _ _
  · rw [avg_distance, carried_eq_filter ms h, List.length_map]
    by_cases hc : (ms.filter isMW).length = 0
    · rw [if_pos hc, if_pos hc]
    · rw [if_neg hc, if_neg hc, Nat.cast_list_sum, List.map_map]
      rfl

/-- Witness for C5 on a concrete entry list containing a weak match and
an insertion. -/
theorem claim_C5_witness :
    matched_count [(⟨some pgT, some pgU, some 4, "weak_match"⟩ : PageMatch),
        ⟨some pgT, none, none, "insert_a"⟩] =
      ([(⟨some pgT, some pgU, some 4, "weak_match"⟩ : PageMatch),
        ⟨some pgT, none, none, "insert_a"⟩].filter
          (fun m => m.match_type == "match")).length ∧
    avg_distance [(⟨some pgT, some pgU, some 4, "weak_match"⟩ : PageMatch),
        ⟨some pgT, none, none, "insert_a"⟩] =
      (if ([(⟨some pgT, some pgU, some 4, "weak_match"⟩ : PageMatch),
          ⟨some pgT, none, none, "insert_a"⟩].filter isMW).length = 0 then 0
       else ((([(⟨some pgT, some pgU, some 4, "weak_match"⟩ : PageMatch),
          ⟨some pgT, none, none, "insert_a"⟩].filter isMW).map
            (fun m => m.distance.getD 0)).sum : ℚ) /
         (([(⟨some pgT, some pgU, some 4, "weak_match"⟩ : PageMatch),
          ⟨some pgT, none, none, "insert_a"⟩].filter isMW).length : ℚ)) :=
  claim_C5 _ (by decide)

/-- C10: the persisted manifest's matched count equals the number of
alignment entries whose outcome is "match" OR "weak_match" (weak matches
are relabelled "matched" by align_and_prepare before counting), for any
starting page index; consequently it strictly exceeds the Summarizer's
matched_count on any list containing a weak match, as the concrete
conjunct shows. -/
theorem claim_C10 :
    (∀ (idx : Nat) (ms : List PageMatch),
      manifest_matched (align_and_prepare_pages idx ms) =
        ms.countP (fun m => m.match_type == "match" ||
          m.match_type == "weak_match")) ∧
    manifest_matched (align_and_prepare_pages 1
        [(⟨some pgT, some pgU, some 4, "weak_match"⟩ : PageMatch)]) = 1 ∧
    matched_count [(⟨some pgT, some pgU, some 4, "weak_match"⟩ : PageMatch)] = 0 := by
  refine ⟨?_, by decide, by decide⟩
  intro idx ms
  induction ms generalizing idx with
  | nil => rfl
  | cons m rest ih =>
    rw [align_and_prepare_pages]
    by_cases h1 : m.match_type = "match" ∨ m.match_type = "weak_match"
    · rw [if_pos h1]
      have hb : (m.match_type == "match" || m.match_type == "weak_match") = true := by
        rcases h1 with h1 | h1 <;> simp [h1]
      simp only [manifest_matched, List.countP_cons] at ih ⊢
      rw [ih (idx+1)]
      simp [hb]
    · rw [if_neg h1]
      push_neg at h1
      have hb : (m.match_type == "match" || m.match_type == "weak_match") = false := by
        simp [h1.1, h1.2]
      by_cases h2 : m.match_type = "insert_a"
      · rw [if_pos h2]
        simp only [manifest_matched, List.countP_cons] at ih ⊢
        rw [ih (idx+1)]
        simp [hb]
      · rw [if_neg h2]
        by_cases h3 : m.match_type = "insert_b"
        · rw [if_pos h3]
          simp only [manifest_matched, List.countP_cons] at ih ⊢
          rw [ih (idx+1)]
          simp [hb]
        · rw [if_neg h3]
          simp only [manifest_matched, List.countP_cons] at ih ⊢
          rw [ih idx]
          simp [hb]

/-- Every traceback step re-derives a recurrence branch that actually
achieved the stored minimum, so the emitted entries telescope to the cost
of the cell the traceback started from. -/
lemma sumCost_traceback (A B : List PageInfo) (t : Int) :
    ∀ i j, sumCost t (traceback A B t i j) = dp A B t i j := by
  refine pair_induction _ ?_ ?_ ?_ ?_
  · rw [tb_zero_zero, dp_zero_zero]; rfl
  · intro i ih
    rw [tb_row, if_pos (dp_row_step A B t i), dp_row_step A B t i]
    show GAP_PENALTY t + sumCost t (traceback A B t i 0) = _
    rw [ih]; ring
  · intro j ih
    rw [tb_col, dp_col_step A B t j]
    show GAP_PENALTY t + sumCost t (traceback A B t 0 j) = _
    rw [ih]; ring
  · intro i j ih1 ih2 ih3
    rw [tb_succ]
    by_cases hc1 : ((distMatrix A B i j : Nat) : Int) ≤ t ∧
        dp A B t (i+1) (j+1) = dp A B t i j + ((distMatrix A B i j : Nat) : Int)
    · rw [if_pos hc1]
      show ((distMatrix A B i j : Nat) : Int) + _ = _
      rw [ih1, hc1.2]; ring
    · rw [if_neg hc1]
      by_cases hc2 : t < ((distMatrix A B i j : Nat) : Int) ∧
          dp A B t (i+1) (j+1) = dp A B t i j + GAP_PENALTY t * 2
      · rw [if_pos hc2]
        show GAP_PENALTY t + (GAP_PENALTY t + _) = _
        rw [ih1, hc2.2]; ring
      · rw [if_neg hc2]
        by_cases hc3 : dp A B t (i+1) (j+1) = dp A B t i (j+1) + GAP_PENALTY t
        · rw [if_pos hc3]
          show GAP_PENALTY t + _ = _
          rw [ih2, hc3]; ring
        · rw [if_neg hc3]
          have hmin := dp_succ A B t i j
          have hhoriz : dp A B t (i+1) (j+1) = dp A B t (i+1) j + GAP_PENALTY t := by
            rcases min_choice (dp A B t i j + subCost A B t i j)
                (min (dp A B t i (j+1) + GAP_PENALTY t)
                  (dp A B t (i+1) j + GAP_PENALTY t)) with h | h
            · rw [h] at hmin
              exfalso
              unfold subCost at hmin
              by_cases hd : ((distMatrix A B i j : Nat) : Int) ≤ t
              · rw [if_pos hd] at hmin
                exact hc1 ⟨hd, hmin⟩
              · rw [if_neg hd] at hmin
                push_neg at hd
                exact hc2 ⟨hd, hmin⟩
            · rw [h] at hmin
              rcases min_choice (dp A B t i (j+1) + GAP_PENALTY t)
                  (dp A B t (i+1) j + GAP_PENALTY t) with h2 | h2
              · rw [h2] at hmin
                exact absurd hmin hc3
              · rw [h2] at hmin
                exact hmin
          show GAP_PENALTY t + _ = _
          rw [ih3, hhoriz]; ring

/-- The traceback from state (i, j) consumes exactly i indices of A
(as matches, weak matches or a-insertions) and j indices of B. -/
lemma tb_counts (A B : List PageInfo) (t : Int) :
    ∀ i j,
      matched_count (traceback A B t i j) + weak_count (traceback A B t i j) +
        insert_a_count (traceback A B t i j) = i ∧
      matched_count (traceback A B t i j) + weak_count (traceback A B t i j) +
        insert_b_count (traceback A B t i j) = j := by
  refine pair_induction _ ?_ ?_ ?_ ?_
  · simp [tb_zero_zero, matched_count, weak_count, insert_a_count,
      insert_b_count]
  · intro i ih
    rw [tb_row, if_pos (dp_row_step A B t i)]
    simp only [matched_count, weak_count, insert_a_count, insert_b_count,
      List.countP_cons] at ih ⊢
    simp [show (("insert_a" == "match") : Bool) = false from rfl,
      show (("insert_a" == "weak_match") : Bool) = false from rfl,
      show (("insert_a" == "insert_a") : Bool) = true from rfl,
      show (("insert_a" == "insert_b") : Bool) = false from rfl,
      -List.countP_eq_zero]
    omega
  · intro j ih
    rw [tb_col]
    simp only [matched_count, weak_count, insert_a_count, insert_b_count,
      List.countP_cons] at ih ⊢
    simp [show (("insert_b" == "match") : Bool) = false from rfl,
      show (("insert_b" == "weak_match") : Bool) = false from rfl,
      show (("insert_b" == "insert_a") : Bool) = false from rfl,
      show (("insert_b" == "insert_b") : Bool) = true from rfl,
      -List.countP_eq_zero]
    omega
  · intro i j ih1 ih2 ih3
    rw [tb_succ]
    by_cases hc1 : ((distMatrix A B i j : Nat) : Int) ≤ t ∧
        dp A B t (i+1) (j+1) = dp A B t i j + ((distMatrix A B i j : Nat) : Int)
    · rw [if_pos hc1]
      by_cases hf : ((distMatrix A B i j : Nat) : Int) ≤ Int.fdiv t 2
      · rw [if_pos hf]
        simp only [matched_count, weak_count, insert_a_count, insert_b_count,
          List.countP_cons] at ih1 ⊢
        simp [show (("match" == "match") : Bool) = true from rfl,
          show (("match" == "weak_match") : Bool) = false from rfl,
          show (("match" == "insert_a") : Bool) = false from rfl,
          show (("match" == "insert_b") : Bool) = false from rfl]
        omega
      · rw [if_neg hf]
        simp only [matched_count, weak_count, insert_a_count, insert_b_count,
          List.countP_cons] at ih1 ⊢
        simp [show (("weak_match" == "match") : Bool) = false from rfl,
          show (("weak_match" == "weak_match") : Bool) = true from rfl,
          show (("weak_match" == "insert_a") : Bool) = false from rfl,
          show (("weak_match" == "insert_b") : Bool) = false from rfl]
        omega
    · rw [if_neg hc1]
      by_cases hc2 : t < ((distMatrix A B i j : Nat) : Int) ∧
          dp A B t (i+1) (j+1) = dp A B t i j + GAP_PENALTY t * 2
      · rw [if_pos hc2]
        simp only [matched_count, weak_count, insert_a_count, insert_b_count,
          List.countP_cons] at ih1 ⊢
        simp [show (("insert_a" == "match") : Bool) = false from rfl,
          show (("insert_a" == "weak_match") : Bool) = false from rfl,
          show (("insert_a" == "insert_a") : Bool) = true from rfl,
          show (("insert_a" == "insert_b") : Bool) = false from rfl,
          show (("insert_b" == "match") : Bool) = false from rfl,
          show (("insert_b" == "weak_match") : Bool) = false from rfl,
          show (("insert_b" == "insert_a") : Bool) = false from rfl,
          show (("insert_b" == "insert_b") : Bool) = true from rfl]
        omega
      · rw [if_neg hc2]
        by_cases hc3 : dp A B t (i+1) (j+1) = dp A B t i (j+1) + GAP_PENALTY t
        · rw [if_pos hc3]
          simp only [matched_count, weak_count, insert_a_count, insert_b_count,
            List.countP_cons] at ih2 ⊢
          simp [show (("insert_a" == "match") : Bool) = false from rfl,
            show (("insert_a" == "weak_match") : Bool) = false from rfl,
            show (("insert_a" == "insert_a") : Bool) = true from rfl,
            show (("insert_a" == "insert_b") : Bool) = false from rfl]
          omega
        · rw [if_neg hc3]
          simp only [matched_count, weak_count, insert_a_count, insert_b_count,
            List.countP_cons] at ih3 ⊢
          simp [show (("insert_b" == "match") : Bool) = false from rfl,
            show (("insert_b" == "weak_match") : Bool) = false from rfl,
            show (("insert_b" == "insert_a") : Bool) = false from rfl,
            show (("insert_b" == "insert_b") : Bool) = true from rfl]
          omega

/-- With a negative threshold no diagonal pairing is possible (distances
are non-negative), so the traceback emits no matched or weak_matched
entry. -/
lemma tb_no_twosided_neg (A B : List PageInfo) (t : Int) (ht : t < 0) :
    ∀ i j, matched_count (traceback A B t i j) = 0 ∧
      weak_count (traceback A B t i j) = 0 := by
  refine pair_induction _ ?_ ?_ ?_ ?_
  · simp [tb_zero_zero, matched_count, weak_count]
  · intro i ih
    rw [tb_row, if_pos (dp_row_step A B t i)]
    simp only [matched_count, weak_count, List.countP_cons] at ih ⊢
    simp [show (("insert_a" == "match") : Bool) = false from rfl,
      show (("insert_a" == "weak_match") : Bool) = false from rfl,
      -List.countP_eq_zero]
    omega
  · intro j ih
    rw [tb_col]
    simp only [matched_count, weak_count, List.countP_cons] at ih ⊢
    simp [show (("insert_b" == "match") : Bool) = false from rfl,
      show (("insert_b" == "weak_match") : Bool) = false from rfl,
      -List.countP_eq_zero]
    omega
  · intro i j ih1 ih2 ih3
    rw [tb_succ]
    by_cases hc1 : ((distMatrix A B i j : Nat) : Int) ≤ t ∧
        dp A B t (i+1) (j+1) = dp A B t i j + ((distMatrix A B i j : Nat) : Int)
    · exfalso
      have : (0 : Int) ≤ ((distMatrix A B i j : Nat) : Int) := Int.natCast_nonneg _
      omega
    · rw [if_neg hc1]
      by_cases hc2 : t < ((distMatrix A B i j : Nat) : Int) ∧
          dp A B t (i+1) (j+1) = dp A B t i j + GAP_PENALTY t * 2
      · rw [if_pos hc2]
        simp only [matched_count, weak_count, List.countP_cons] at ih1 ⊢
        simp [show (("insert_a" == "match") : Bool) = false from rfl,
          show (("insert_a" == "weak_match") : Bool) = false from rfl,
          show (("insert_b" == "match") : Bool) = false from rfl,
          show (("insert_b" == "weak_match") : Bool) = false from rfl,
          -List.countP_eq_zero]
        omega
      · rw [if_neg hc2]
        by_cases hc3 : dp A B t (i+1) (j+1) = dp A B t i (j+1) + GAP_PENALTY t
        · rw [if_pos hc3]
          simp only [matched_count, weak_count, List.countP_cons] at ih2 ⊢
          simp [show (("insert_a" == "match") : Bool) = false from rfl,
            show (("insert_a" == "weak_match") : Bool) = false from rfl,
            -List.countP_eq_zero]
          omega
        · rw [if_neg hc3]
          simp only [matched_count, weak_count, List.countP_cons] at ih3 ⊢
          simp [show (("insert_b" == "match") : Bool) = false from rfl,
            show (("insert_b" == "weak_match") : Bool) = false from rfl,
            -List.countP_eq_zero]
          omega

/-- Total emitted cost decomposes into one gap penalty per entry without
a distance plus the sum of the carried distances. -/
lemma sumCost_decompose (t : Int) (L : List PageMatch) :
    sumCost t L =
      GAP_PENALTY t * ((L.countP (fun e => e.distance == none) : Nat) : Int) +
        ((carried_distances L).sum : Int) := by
  induction L with
  | nil => simp [sumCost, carried_distances]
  | cons e l ih =>
    rcases hd : e.distance with _ | d
    · have hb : (e.distance == none) = true := by rw [hd]; rfl
      have hce : entryCost t e = GAP_PENALTY t := by
        unfold entryCost
        rw [hd]
      rw [show sumCost t (e :: l) = entryCost t e + sumCost t l from rfl,
        hce, ih]
      rw [show carried_distances (e :: l) = carried_distances l from by
        simp [carried_distances, List.filterMap_cons, hd]]
      rw [List.countP_cons, hb]
      push_cast
      simp only [if_true]
      ring
    · have hb : (e.distance == none) = false := by rw [hd]; rfl
      have hce : entryCost t e = ((d : Nat) : Int) := by
        unfold entryCost
        rw [hd]
      rw [show sumCost t (e :: l) = entryCost t e + sumCost t l from rfl,
        hce, ih]
      rw [show carried_distances (e :: l) = d :: carried_distances l from by
        simp [carried_distances, List.filterMap_cons, hd]]
      rw [List.countP_cons, hb]
      push_cast
      simp only [List.map_cons, List.sum_cons]
      ring

/-- In traceback output, the entries without a distance are exactly the
insertion entries. -/
lemma tb_none_eq_ins (A B : List PageInfo) (t : Int) :
    ∀ i j, (traceback A B t i j).countP (fun e => e.distance == none) =
      insert_a_count (traceback A B t i j) +
        insert_b_count (traceback A B t i j) := by
  refine pair_induction _ ?_ ?_ ?_ ?_
  · simp [tb_zero_zero, insert_a_count, insert_b_count]
  · intro i ih
    rw [tb_row, if_pos (dp_row_step A B t i)]
    simp only [insert_a_count, insert_b_count, List.countP_cons] at ih ⊢
    simp [show (("insert_a" == "insert_a") : Bool) = true from rfl,
      show (("insert_a" == "insert_b") : Bool) = false from rfl,
      -List.countP_eq_zero]
    omega
  · intro j ih
    rw [tb_col]
    simp only [insert_a_count, insert_b_count, List.countP_cons] at ih ⊢
    simp [show (("insert_b" == "insert_a") : Bool) = false from rfl,
      show (("insert_b" == "insert_b") : Bool) = true from rfl,
      -List.countP_eq_zero]
    omega
  · intro i j ih1 ih2 ih3
    rw [tb_succ]
    by_cases hc1 : ((distMatrix A B i j : Nat) : Int) ≤ t ∧
        dp A B t (i+1) (j+1) = dp A B t i j + ((distMatrix A B i j : Nat) : Int)
    · rw [if_pos hc1]
      by_cases hf : ((distMatrix A B i j : Nat) : Int) ≤ Int.fdiv t 2
      · rw [if_pos hf]
        simp only [insert_a_count, insert_b_count, List.countP_cons] at ih1 ⊢
        simp [show (("match" == "insert_a") : Bool) = false from rfl,
          show (("match" == "insert_b") : Bool) = false from rfl,
          -List.countP_eq_zero]
        omega
      · rw [if_neg hf]
        simp only [insert_a_count, insert_b_count, List.countP_cons] at ih1 ⊢
        simp [show (("weak_match" == "insert_a") : Bool) = false from rfl,
          show (("weak_match" == "insert_b") : Bool) = false from rfl,
          -List.countP_eq_zero]
        omega
    · rw [if_neg hc1]
      by_cases hc2 : t < ((distMatrix A B i j : Nat) : Int) ∧
          dp A B t (i+1) (j+1) = dp A B t i j + GAP_PENALTY t * 2
      · rw [if_pos hc2]
        simp only [insert_a_count, insert_b_count, List.countP_cons] at ih1 ⊢
        simp [show (("insert_a" == "insert_a") : Bool) = true from rfl,
          show (("insert_a" == "insert_b") : Bool) = false from rfl,
          show (("insert_b" == "insert_a") : Bool) = false from rfl,
          show (("insert_b" == "insert_b") : Bool) = true from rfl,
          -List.countP_eq_zero]
        omega
      · rw [if_neg hc2]
        by_cases hc3 : dp A B t (i+1) (j+1) = dp A B t i (j+1) + GAP_PENALTY t
        · rw [if_pos hc3]
          simp only [insert_a_count, insert_b_count, List.countP_cons] at ih2 ⊢
          simp [show (("insert_a" == "insert_a") : Bool) = true from rfl,
            show (("insert_a" == "insert_b") : Bool) = false from rfl,
            -List.countP_eq_zero]
          omega
        · rw [if_neg hc3]
          simp only [insert_a_count, insert_b_count, List.countP_cons] at ih3 ⊢
          simp [show (("insert_b" == "insert_a") : Bool) = false from rfl,
            show (("insert_b" == "insert_b") : Bool) = true from rfl,
            -List.countP_eq_zero]
          omega

/-- Every weak_matched traceback entry carries a strictly positive
distance (its distance exceeds the non-negative half threshold). -/
lemma tb_weak_dist (A B : List PageInfo) (t : Int) (ht : 0 ≤ t) :
    ∀ i j, ∀ e ∈ traceback A B t i j, e.match_type = "weak_match" →
      ∃ d : Nat, e.distance = some d ∧ 1 ≤ d := by
  refine pair_induction _ ?_ ?_ ?_ ?_
  · intro e he
    rw [tb_zero_zero] at he
    exact absurd he (List.not_mem_nil e)
  · intro i ih e he
    rw [tb_row, if_pos (dp_row_step A B t i)] at he
    rcases List.mem_cons.mp he with rfl | he2
    · intro hw
      exact absurd hw (by simp)
    · exact ih e he2
  · intro j ih e he
    rw [tb_col] at he
    rcases List.mem_cons.mp he with rfl | he2
    · intro hw
      exact absurd hw (by simp)
    · exact ih e he2
  · intro i j ih1 ih2 ih3 e he
    rw [tb_succ] at he
    by_cases hc1 : ((distMatrix A B i j : Nat) : Int) ≤ t ∧
        dp A B t (i+1) (j+1) = dp A B t i j + ((distMatrix A B i j : Nat) : Int)
    · rw [if_pos hc1] at he
      rcases List.mem_cons.mp he with rfl | he2
      · intro hw
        by_cases hf : ((distMatrix A B i j : Nat) : Int) ≤ Int.fdiv t 2
        · rw [if_pos hf] at hw
          exact absurd hw (by simp)
        · refine ⟨distMatrix A B i j, rfl, ?_⟩
          have hfd : (0 : Int) ≤ Int.fdiv t 2 := Int.fdiv_nonneg ht (by omega)
          push_neg at hf
          omega
      · exact ih1 e he2
    · rw [if_neg hc1] at he
      by_cases hc2 : t < ((distMatrix A B i j : Nat) : Int) ∧
          dp A B t (i+1) (j+1) = dp A B t i j + GAP_PENALTY t * 2
      · rw [if_pos hc2] at he
        rcases List.mem_cons.mp he with rfl | he2
        · intro hw
          exact absurd hw (by simp)
        · rcases List.mem_cons.mp he2 with rfl | he3
          · intro hw
            exact absurd hw (by simp)
          · exact ih1 e he3
      · rw [if_neg hc2] at he
        by_cases hc3 : dp A B t (i+1) (j+1) = dp A B t i (j+1) + GAP_PENALTY t
        · rw [if_pos hc3] at he
          rcases List.mem_cons.mp he with rfl | he2
          · intro hw
            exact absurd hw (by simp)
          · exact ih2 e he2
        · rw [if_neg hc3] at he
          rcases List.mem_cons.mp he with rfl | he2
          · intro hw
            exact absurd hw (by simp)
          · exact ih3 e he2

lemma insert_length (A : List PageInfo) (x : PageInfo) (p : Nat)
    (hp : p ≤ A.length) :
    (A.take p ++ x :: A.drop p).length = A.length + 1 := by
  simp [List.length_append, List.length_take, List.length_drop]
  omega

lemma getD_insert_lt (A : List PageInfo) (x : PageInfo) (p k : Nat)
    (hk : k < p) (hp : p ≤ A.length) :
    (A.take p ++ x :: A.drop p).getD k default = A.getD k default := by
  rw [List.getD_eq_getElem?_getD, List.getD_eq_getElem?_getD,
    List.getElem?_append]
  rw [if_pos (by simp [List.length_take]; omega)]
  rw [List.getElem?_take, if_pos hk]

lemma getD_insert_shift (A : List PageInfo) (x : PageInfo) (p k : Nat)
    (hk : p ≤ k) (hp : p ≤ A.length) :
    (A.take p ++ x :: A.drop p).getD (k+1) default = A.getD k default := by
  rw [List.getD_eq_getElem?_getD, List.getD_eq_getElem?_getD,
    List.getElem?_append]
  have hlen : (A.take p).length = p := by simp [List.length_take]; omega
  rw [if_neg (by omega)]
  have h1 : k + 1 - (A.take p).length = (k - p) + 1 := by omega
  rw [h1, List.getElem?_cons_succ, List.getElem?_drop]
  have h2 : p + (k - p) = k := by omega
  rw [h2]

lemma dist_insert_diag (A : List PageInfo) (x : PageInfo) (p k : Nat)
    (hk : k < p) (hp : p ≤ A.length) :
    distMatrix A (A.take p ++ x :: A.drop p) k k = 0 := by
  unfold distMatrix
  rw [getD_insert_lt A x p k hk hp]
  exact hash_distance_self _

lemma dist_insert_shift (A : List PageInfo) (x : PageInfo) (p k : Nat)
    (hk : p ≤ k) (hp : p ≤ A.length) :
    distMatrix A (A.take p ++ x :: A.drop p) k (k+1) = 0 := by
  unfold distMatrix
  rw [getD_insert_shift A x p k hk hp]
  exact hash_distance_self _

lemma dp_insert_diag_le (A : List PageInfo) (x : PageInfo) (p : Nat)
    (hp : p ≤ A.length) (t : Int) (ht : 0 ≤ t) :
    ∀ k, k ≤ p → dp A (A.take p ++ x :: A.drop p) t k k ≤ 0 := by
  intro k
  induction k with
  | zero => intro _; rw [dp_zero_zero]
  | succ k ih =>
    intro hk
    have hsub : subCost A (A.take p ++ x :: A.drop p) t k k = 0 := by
      unfold subCost
      rw [dist_insert_diag A x p k (by omega) hp]
      simp [ht]
    calc dp A (A.take p ++ x :: A.drop p) t (k+1) (k+1) ≤
        dp A (A.take p ++ x :: A.drop p) t k k +
          subCost A (A.take p ++ x :: A.drop p) t k k := by
          rw [dp_succ]; exact min_le_left _ _
      _ ≤ 0 := by rw [hsub]; have := ih (by omega); omega

lemma dp_insert_off_le (A : List PageInfo) (x : PageInfo) (p : Nat)
    (hp : p ≤ A.length) (t : Int) (ht : 0 ≤ t) :
    ∀ k (hk : p ≤ k), k ≤ A.length →
      dp A (A.take p ++ x :: A.drop p) t k (k+1) ≤ GAP_PENALTY t := by
  refine Nat.le_induction ?_ ?_
  · intro _
    cases p with
    | zero =>
      rw [dp_col]
      push_cast
      omega
    | succ q =>
      calc dp A (A.take (q+1) ++ x :: A.drop (q+1)) t (q+1) (q+2) ≤
          dp A (A.take (q+1) ++ x :: A.drop (q+1)) t (q+1) (q+1) +
            GAP_PENALTY t := by
            rw [dp_succ]
            exact le_trans (min_le_right _ _) (min_le_right _ _)
        _ ≤ GAP_PENALTY t := by
            have := dp_insert_diag_le A x (q+1) hp t ht (q+1) le_rfl
            omega
  · intro k hk ih hk1
    have hsub : subCost A (A.take p ++ x :: A.drop p) t k (k+1) = 0 := by
      unfold subCost
      rw [dist_insert_shift A x p k hk hp]
      simp [ht]
    calc dp A (A.take p ++ x :: A.drop p) t (k+1) (k+2) ≤
        dp A (A.take p ++ x :: A.drop p) t k (k+1) +
          subCost A (A.take p ++ x :: A.drop p) t k (k+1) := by
          rw [dp_succ]; exact min_le_left _ _
      _ ≤ GAP_PENALTY t := by
          have := ih (by omega)
          omega

/-- The endpoint cost for a one-page insertion: exactly one gap. -/
lemma dp_insert_endpoint (A : List PageInfo) (x : PageInfo) (p : Nat)
    (hp : p ≤ A.length) (t : Int) (ht : 0 ≤ t) :
    dp A (A.take p ++ x :: A.drop p) t A.length (A.length + 1) =
      GAP_PENALTY t := by
  refine le_antisymm (dp_insert_off_le A x p hp t ht A.length hp le_rfl) ?_
  have := dp_ge_gap_mul A (A.take p ++ x :: A.drop p) t ht
    A.length (A.length + 1)
  have hcast : GAP_PENALTY t * (((A.length + 1 : Nat) : Int) -
      ((A.length : Nat) : Int)) = GAP_PENALTY t := by
    push_cast
    ring
  rw [hcast] at this
  exact this

lemma matched_count_reverse (l : List PageMatch) :
    matched_count l.reverse = matched_count l := List.countP_reverse _ _

lemma weak_count_reverse (l : List PageMatch) :
    weak_count l.reverse = weak_count l := List.countP_reverse _ _

lemma insert_a_count_reverse (l : List PageMatch) :
    insert_a_count l.reverse = insert_a_count l := List.countP_reverse _ _

lemma insert_b_count_reverse (l : List PageMatch) :
    insert_b_count l.reverse = insert_b_count l := List.countP_reverse _ _

/-- For B equal to A with exactly one extra page inserted, the counts of
the alignment are independent of the threshold on each side of zero: for
threshold ≥ 0, all |A| pages match and there is exactly one insertion
entry; for negative threshold, nothing matches and every consumed index
is an insertion entry. -/
lemma align_insert_counts (A : List PageInfo) (x : PageInfo) (p : Nat)
    (hp : p ≤ A.length) (t : Int) :
    (0 ≤ t →
      matched_count (align_sequences A (A.take p ++ x :: A.drop p) t) =
        A.length ∧
      insert_a_count (align_sequences A (A.take p ++ x :: A.drop p) t) +
        insert_b_count (align_sequences A (A.take p ++ x :: A.drop p) t) = 1) ∧
    (t < 0 →
      matched_count (align_sequences A (A.take p ++ x :: A.drop p) t) = 0 ∧
      insert_a_count (align_sequences A (A.take p ++ x :: A.drop p) t) +
        insert_b_count (align_sequences A (A.take p ++ x :: A.drop p) t) =
          2 * A.length + 1) := by
  have hBlen : (A.take p ++ x :: A.drop p).length = A.length + 1 :=
    insert_length A x p hp
  by_cases hA0 : A.length = 0
  · rcases List.length_eq_zero.mp hA0 with rfl
    have hB : ([] : List PageInfo).take p ++ x :: ([] : List PageInfo).drop p =
        [x] := by simp
    rw [hB]
    have halign : align_sequences [] [x] t =
        [⟨none, some x, none, "insert_b"⟩] := by
      simp [align_sequences]
    rw [halign]
    constructor <;> intro ht <;> constructor <;>
      simp [matched_count, insert_a_count, insert_b_count, List.countP_cons,
        show (("insert_b" == "match") : Bool) = false from rfl,
        show (("insert_b" == "insert_a") : Bool) = false from rfl,
        show (("insert_b" == "insert_b") : Bool) = true from rfl]
  · have halign : align_sequences A (A.take p ++ x :: A.drop p) t =
        (traceback A (A.take p ++ x :: A.drop p) t
          A.length (A.length + 1)).reverse := by
      unfold align_sequences
      rw [if_neg (fun hc => hA0 hc.1), if_neg hA0,
        if_neg (by omega : ¬ (A.take p ++ x :: A.drop p).length = 0), hBlen]
    rw [halign, matched_count_reverse, insert_a_count_reverse,
      insert_b_count_reverse]
    obtain ⟨hca, hcb⟩ :=
      tb_counts A (A.take p ++ x :: A.drop p) t A.length (A.length + 1)
    constructor
    · intro ht
      have hsum := sumCost_traceback A (A.take p ++ x :: A.drop p) t
        A.length (A.length + 1)
      rw [dp_insert_endpoint A x p hp t ht] at hsum
      rw [sumCost_decompose t _,
        tb_none_eq_ins A (A.take p ++ x :: A.drop p) t A.length
          (A.length + 1)] at hsum
      have hS : (0 : Int) ≤ (((carried_distances
          (traceback A (A.take p ++ x :: A.drop p) t A.length
            (A.length + 1))).sum : Nat) : Int) := Int.natCast_nonneg _
      have hG := gap_pos t ht
      have hk1 : 1 ≤ insert_a_count (traceback A (A.take p ++ x :: A.drop p)
          t A.length (A.length + 1)) +
          insert_b_count (traceback A (A.take p ++ x :: A.drop p) t A.length
            (A.length + 1)) := by omega
      have hkle : insert_a_count (traceback A (A.take p ++ x :: A.drop p) t
          A.length (A.length + 1)) +
          insert_b_count (traceback A (A.take p ++ x :: A.drop p) t A.length
            (A.length + 1)) ≤ 1 := by
        by_contra hgt
        push_neg at hgt
        have h2 : (2 : Int) ≤ ((insert_a_count
            (traceback A (A.take p ++ x :: A.drop p) t A.length
              (A.length + 1)) +
            insert_b_count (traceback A (A.take p ++ x :: A.drop p) t
              A.length (A.length + 1)) : Nat) : Int) := by
          exact_mod_cast hgt
        nlinarith [hG, hS, hsum]
      have hkeq : insert_a_count (traceback A (A.take p ++ x :: A.drop p) t
          A.length (A.length + 1)) +
          insert_b_count (traceback A (A.take p ++ x :: A.drop p) t A.length
            (A.length + 1)) = 1 := le_antisymm hkle hk1
      have hSz : (carried_distances (traceback A (A.take p ++ x :: A.drop p)
          t A.length (A.length + 1))).sum = 0 := by
        rw [hkeq] at hsum
        have h1 : GAP_PENALTY t * (((1 : Nat) : Int)) = GAP_PENALTY t := by
          push_cast
          ring
        rw [h1] at hsum
        omega
      have hw : weak_count (traceback A (A.take p ++ x :: A.drop p) t
          A.length (A.length + 1)) = 0 := by
        by_contra hwne
        obtain ⟨e, heL, hew⟩ :=
          List.countP_pos.mp (Nat.pos_of_ne_zero hwne)
        obtain ⟨d, hd, hd1⟩ := tb_weak_dist A (A.take p ++ x :: A.drop p) t ht
          A.length (A.length + 1) e heL (eq_of_beq hew)
        have hmem : d ∈ carried_distances (traceback A
            (A.take p ++ x :: A.drop p) t A.length (A.length + 1)) :=
          List.mem_filterMap.mpr ⟨e, heL, by rw [hd]⟩
        have := List.single_le_sum (fun y _ => Nat.zero_le y) d hmem
        omega
      exact ⟨by omega, hkeq⟩
    · intro ht
      obtain ⟨hm0, hw0⟩ := tb_no_twosided_neg A (A.take p ++ x :: A.drop p) t
        ht A.length (A.length + 1)
      exact ⟨hm0, by omega⟩

/-- C9: for B equal to A with exactly one extra page inserted and
thresholds t1 ≤ t2, aligning with t2 never yields more insertion
(a_only/b_only) entries than aligning with t1, and never a smaller
matchedCount. -/
theorem claim_C9 (A : List PageInfo) (x : PageInfo) (p : Nat)
    (hp : p ≤ A.length) (B : List PageInfo)
    (hB : B = A.take p ++ x :: A.drop p) (t1 t2 : Int) (h12 : t1 ≤ t2) :
    insert_a_count (align_sequences A B t2) +
        insert_b_count (align_sequences A B t2) ≤
      insert_a_count (align_sequences A B t1) +
        insert_b_count (align_sequences A B t1) ∧
    matched_count (align_sequences A B t1) ≤
      matched_count (align_sequences A B t2) := by
  subst hB
  have h1 := align_insert_counts A x p hp t1
  have h2 := align_insert_counts A x p hp t2
  by_cases hs1 : 0 ≤ t1
  · obtain ⟨hm1, hi1⟩ := h1.1 hs1
    obtain ⟨hm2, hi2⟩ := h2.1 (by omega)
    omega
  · push_neg at hs1
    obtain ⟨hm1, hi1⟩ := h1.2 hs1
    by_cases hs2 : 0 ≤ t2
    · obtain ⟨hm2, hi2⟩ := h2.1 hs2
      omega
    · push_neg at hs2
      obtain ⟨hm2, hi2⟩ := h2.2 hs2
      omega

/-- Witness for C9: one page inserted at position 1, thresholds 5 ≤ 20. -/
theorem claim_C9_witness :
    insert_a_count (align_sequences [pgT] [pgT, pgU] 20) +
        insert_b_count (align_sequences [pgT] [pgT, pgU] 20) ≤
      insert_a_count (align_sequences [pgT] [pgT, pgU] 5) +
        insert_b_count (align_sequences [pgT] [pgT, pgU] 5) ∧
    matched_count (align_sequences [pgT] [pgT, pgU] 5) ≤
      matched_count (align_sequences [pgT] [pgT, pgU] 20) :=
  claim_C9 [pgT] pgU 1 (by decide) [pgT, pgU] (by decide) 5 20 (by decide)

lemma filterMap_eq_map_of_forall_some {a b : Type} (f : a → Option b)
    (g : a → b) :
    ∀ (l : List a), (∀ y ∈ l, f y = some (g y)) → l.filterMap f = l.map g := by
  intro l
  induction l with
  | nil => intro _; rfl
  | cons y ys ih =>
    intro h
    rw [List.filterMap_cons, h y (List.mem_cons_self y ys), List.map_cons,
      ih (fun z hz => h z (List.mem_cons_of_mem y hz))]

lemma enumFrom_snd_mem {a : Type} (l : List a) :
    ∀ (n : Nat) (q : Nat × a), q ∈ l.enumFrom n → q.2 ∈ l := by
  induction l with
  | nil => intro n q hq; exact absurd hq (List.not_mem_nil q)
  | cons y ys ih =>
    intro n q hq
    rw [List.enumFrom_cons] at hq
    rcases List.mem_cons.mp hq with rfl | hq2
    · exact List.mem_cons_self y ys
    · exact List.mem_cons_of_mem y (ih (n+1) q hq2)

lemma lookup_filter_zip (P : String × List Nat → Bool) :
    ∀ (l : ZipFile) (n : String) (b : List Nat),
      List.lookup n l = some b → P (n, b) = true →
      List.lookup n (l.filter P) = some b := by
  intro l
  induction l with
  | nil => intro n b h _; exact absurd h (by simp)
  | cons q rest ih =>
    intro n b h hP
    rcases q with ⟨m, c⟩
    rw [List.lookup_cons] at h
    rcases hnm : (n == m) with _ | _
    · rw [hnm] at h
      simp only at h
      rw [List.filter_cons]
      rcases hPm : P (m, c) with _ | _
      · simp only [Bool.false_eq_true, if_false]
        exact ih n b h hP
      · simp only [if_true]
        rw [List.lookup_cons, hnm]
        exact ih n b h hP
    · rw [hnm] at h
      simp only at h
      have hmn : n = m := eq_of_beq hnm
      subst hmn
      rw [Option.some_inj] at h
      subst h
      rw [List.filter_cons, hP]
      simp only [if_true]
      rw [List.lookup_cons]
      simp

lemma extract_mem_spec (Z : ZipFile) :
    ∀ q ∈ extract_pages Z, List.lookup q.1 Z = some q.2 ∧
      image_extensions.contains (str_toLower (path_suffix q.1)) = true := by
  intro q hq
  unfold extract_pages at hq
  obtain ⟨n, _, heq⟩ := List.mem_filterMap.mp hq
  by_cases hc : image_extensions.contains (str_toLower (path_suffix n)) = true
  · rw [if_pos hc] at heq
    rcases hlk : List.lookup n Z with _ | b
    · rw [hlk] at heq
      exact absurd heq (by simp)
    · rw [hlk] at heq
      simp only [Option.map_some', Option.some_inj] at heq
      subst heq
      exact ⟨hlk, hc⟩
  · rw [if_neg hc] at heq
    exact absurd heq (by simp)

/-- Aligning a self-matched list and preparing pages numbers them from
`idx` with both sides set to the page's filename. -/
lemma prep_selfmatch :
    ∀ (l : List PageInfo) (idx : Nat),
      align_and_prepare_pages idx
        (l.map (fun p => (⟨some p, some p, some 0, "match"⟩ : PageMatch))) =
      (l.enumFrom idx).map (fun q =>
        (⟨q.1, some q.2.filename, some q.2.filename, "matched",
          some 0⟩ : AlignedPage)) := by
  intro l
  induction l with
  | nil => intro idx; rfl
  | cons p ps ih =>
    intro idx
    rw [List.map_cons, align_and_prepare_pages, List.enumFrom_cons,
      List.map_cons]
    rw [if_pos (Or.inl rfl)]
    simp only [Option.map_some']
    rw [ih (idx+1)]

lemma create_zip_selfnames (Z : ZipFile) (lang : String) :
    ∀ (names : List String) (idx : Nat),
      (∀ n ∈ names, ∃ b, List.lookup n (source_images Z) = some b) →
      create_aligned_zip Z ((names.enumFrom idx).map
        (fun q => (⟨q.1, some q.2, some q.2, "matched", some 0⟩ : AlignedPage)))
        lang =
      (names.enumFrom idx).map
        (fun q => (pad3 q.1 ++ get_image_extension q.2,
          (List.lookup q.2 (source_images Z)).getD [])) := by
  intro names
  induction names with
  | nil => intro idx _; rfl
  | cons n ns ih =>
    intro idx h
    obtain ⟨b, hb⟩ := h n (List.mem_cons_self n ns)
    rw [List.enumFrom_cons, List.map_cons, List.map_cons]
    have ih2 := ih (idx+1) (fun m hm => h m (List.mem_cons_of_mem n hm))
    unfold create_aligned_zip at ih2 ⊢
    rw [List.filterMap_cons]
    simp only [ite_self, hb]
    rw [ih2]
    rfl

lemma enumFrom_map_snd {a b : Type} (f : a → b) :
    ∀ (l : List a) (n : Nat),
      (l.enumFrom n).map (fun q => f q.2) = l.map f := by
  intro l
  induction l with
  | nil => intro n; rfl
  | cons y ys ih =>
    intro n
    rw [List.enumFrom_cons, List.map_cons, List.map_cons, ih (n+1)]

/-- When every extracted page fingerprints successfully, the analyzed
pages carry exactly the extracted filenames, in order. -/
lemma analyze_filenames (hashFn : List Nat → Option (List Bool × Nat × Nat))
    (Z : ZipFile)
    (h : ∀ q ∈ extract_pages Z, (hashFn q.2).isSome = true) :
    (analyze_chapter hashFn Z).map PageInfo.filename =
      (extract_pages Z).map Prod.fst := by
  unfold analyze_chapter
  rw [filterMap_eq_map_of_forall_some _
    (fun q => (⟨q.1, q.2.1, ((hashFn q.2.2).getD ([], 0, 0)).1,
      ((hashFn q.2.2).getD ([], 0, 0)).2.1,
      ((hashFn q.2.2).getD ([], 0, 0)).2.2⟩ : PageInfo)) _ ?_]
  · rw [List.map_map]
    exact enumFrom_map_snd Prod.fst (extract_pages Z) 0
  · intro q hq
    have h2 := h q.2 (enumFrom_snd_mem (extract_pages Z) 0 q hq)
    obtain ⟨r, hr⟩ := Option.isSome_iff_exists.mp h2
    simp [hr]

/-- The round trip of the output remapper over a self-alignment, under
the hypotheses the code requires: every extracted page fingerprints
successfully, no extracted page is a ".gif" (the one extension accepted
by extract_pages but dropped by create_aligned_zip), and the threshold
is non-negative.  Position k (1-based, zero-padded) of either output
side carries the bytes of the k-th extracted page unchanged. -/
lemma round_trip (Z : ZipFile)
    (hashFn : List Nat → Option (List Bool × Nat × Nat)) (t : Int)
    (ht : 0 ≤ t)
    (hh : ∀ q ∈ extract_pages Z, (hashFn q.2).isSome = true)
    (hg : ∀ q ∈ extract_pages Z, str_toLower (path_suffix q.1) ≠ ".gif")
    (lang : String) :
    create_aligned_zip Z (align_and_prepare_pages 1
      (align_sequences (analyze_chapter hashFn Z)
        (analyze_chapter hashFn Z) t)) lang =
    ((extract_pages Z).enumFrom 1).map
      (fun q => (pad3 q.1 ++ get_image_extension q.2.1, q.2.2)) := by
  rw [align_self (analyze_chapter hashFn Z) t ht, prep_selfmatch _ 1]
  have hconv : ((analyze_chapter hashFn Z).enumFrom 1).map (fun q =>
      (⟨q.1, some q.2.filename, some q.2.filename, "matched",
        some 0⟩ : AlignedPage)) =
      (((analyze_chapter hashFn Z).map PageInfo.filename).enumFrom 1).map
        (fun q => (⟨q.1, some q.2, some q.2, "matched",
          some 0⟩ : AlignedPage)) := by
    rw [List.enumFrom_map, List.map_map]
    apply List.map_congr_left
    rintro ⟨k, p⟩ _
    rfl
  rw [hconv, analyze_filenames hashFn Z hh]
  have hlook : ∀ n ∈ (extract_pages Z).map Prod.fst,
      ∃ b, List.lookup n (source_images Z) = some b := by
    intro n hn
    obtain ⟨q, hq, rfl⟩ := List.mem_map.mp hn
    obtain ⟨hlk, hcont⟩ := extract_mem_spec Z q hq
    have hmem : str_toLower (path_suffix q.1) ∈ image_extensions := by
      simpa using hcont
    have hpre : image_extensions_prepare.contains
        (str_toLower (path_suffix q.1)) = true := by
      have hng := hg q hq
      simp only [image_extensions, List.mem_cons, List.not_mem_nil,
        or_false] at hmem
      rcases hmem with h1 | h1 | h1 | h1 | h1 <;>
        simp [image_extensions_prepare, h1] at hng ⊢
    refine ⟨q.2, ?_⟩
    exact lookup_filter_zip _ Z q.1 q.2 hlk hpre
  rw [create_zip_selfnames Z lang _ 1 hlook]
  rw [List.enumFrom_map, List.map_map]
  apply List.map_congr_left
  rintro ⟨k, n, b⟩ hq
  have hqm : ((n, b) : String × List Nat) ∈ extract_pages Z :=
    enumFrom_snd_mem (extract_pages Z) 1 (k, (n, b)) hq
  obtain ⟨hlk, hcont⟩ := extract_mem_spec Z (n, b) hqm
  have hmem : str_toLower (path_suffix n) ∈ image_extensions := by
    simpa using hcont
  have hpre : image_extensions_prepare.contains
      (str_toLower (path_suffix n)) = true := by
    have hng := hg (n, b) hqm
    simp only [image_extensions, List.mem_cons, List.not_mem_nil,
      or_false] at hmem
    rcases hmem with h1 | h1 | h1 | h1 | h1 <;>
      simp [image_extensions_prepare, h1] at hng ⊢
  have hlk2 : List.lookup n (source_images Z) = some b :=
    lookup_filter_zip _ Z n b hlk hpre
  simp [Prod.map, hlk2]

/-- Counterexample to C6 as stated: a ".gif" page is extracted, aligned
with itself as a matched entry with a payload on both sides, yet
create_aligned_zip writes nothing at all (extract_pages accepts ".gif"
while create_aligned_zip's source dictionary does not), so the payload
is not reproduced at any position and the round trip fails. -/
theorem claim_C6_counterexample :
    align_and_prepare_pages 1
      (align_sequences (analyze_chapter constHash gifZip)
        (analyze_chapter constHash gifZip) 25) =
      [⟨1, some ("a.gif"), some ("a.gif"), "matched", some 0⟩] ∧
    create_aligned_zip gifZip
      [⟨1, some ("a.gif"), some ("a.gif"), "matched", some 0⟩] "en" = [] ∧
    create_aligned_zip gifZip
      [⟨1, some ("a.gif"), some ("a.gif"), "matched", some 0⟩] "es" = [] := by
  decide

/-- C6 (amended): the remapper writes, for every entry with a payload on
the requested side whose name occurs in the side's source dictionary —
i.e. whose lowercased extension is .jpg/.jpeg/.png/.webp — that payload's
bytes unchanged at the entry's 1-based zero-padded position with the
original extension; and the remapper applied to an alignment of a
chapter with itself reproduces the chapter's bytes unchanged at every
position of both output sides, provided every extracted page
fingerprints successfully, no extracted page is a ".gif", and the
threshold is non-negative. -/
theorem claim_C6 :
    (∀ (source_zip : ZipFile) (aligned : List AlignedPage) (lang : String)
      (p : AlignedPage), p ∈ aligned →
      ∀ (n : String) (b : List Nat),
      (if lang = "en" then p.en_source else p.es_source) = some n →
      List.lookup n (source_images source_zip) = some b →
      (pad3 p.index ++ get_image_extension n, b) ∈
        create_aligned_zip source_zip aligned lang) ∧
    (∀ (Z : ZipFile) (hashFn : List Nat → Option (List Bool × Nat × Nat))
      (t : Int), 0 ≤ t →
      (∀ q ∈ extract_pages Z, (hashFn q.2).isSome = true) →
      (∀ q ∈ extract_pages Z, str_toLower (path_suffix q.1) ≠ ".gif") →
      ∀ (lang : String),
      create_aligned_zip Z (align_and_prepare_pages 1
        (align_sequences (analyze_chapter hashFn Z)
          (analyze_chapter hashFn Z) t)) lang =
      ((extract_pages Z).enumFrom 1).map
        (fun q => (pad3 q.1 ++ get_image_extension q.2.1, q.2.2))) := by
  constructor
  · intro source_zip aligned lang p hp n b hside hlk
    unfold create_aligned_zip
    refine List.mem_filterMap.mpr ⟨p, hp, ?_⟩
    rw [hside]
    show (match List.lookup n (source_images source_zip) with
      | none => none
      | some data => some (pad3 p.index ++ get_image_extension n, data)) =
      some (pad3 p.index ++ get_image_extension n, b)
    rw [hlk]
  · intro Z hashFn t ht hh hg lang
    exact round_trip Z hashFn t ht hh hg lang

/-- Witness for C6 (amended) on a one-page ".jpg" archive: both the
per-entry membership part and the round-trip part at concrete inputs. -/
theorem claim_C6_witness :
    ((pad3 1 ++ get_image_extension ("a.jpg"), [7]) ∈
      create_aligned_zip jpgZip
        [⟨1, some ("a.jpg"), some ("a.jpg"), "matched", some 0⟩] "en") ∧
    create_aligned_zip jpgZip (align_and_prepare_pages 1
      (align_sequences (analyze_chapter constHash jpgZip)
        (analyze_chapter constHash jpgZip) 25)) "en" =
    ((extract_pages jpgZip).enumFrom 1).map
      (fun q => (pad3 q.1 ++ get_image_extension q.2.1, q.2.2)) :=
  ⟨claim_C6.1 jpgZip [⟨1, some ("a.jpg"), some ("a.jpg"), "matched", some 0⟩]
      "en" ⟨1, some ("a.jpg"), some ("a.jpg"), "matched", some 0⟩
      (by decide) "a.jpg" [7] (by decide) (by decide),
    claim_C6.2 jpgZip constHash 25 (by decide) (by decide) (by decide) "en"⟩
